import Mathlib

/-!
Verification of the delay-simulator lifecycle engine (delay.py).

This file shallowly embeds the pure content of the script: the bitmask
calculator, the persisted-state store, the command executor, the
setup/teardown orchestrator (as effect traces over an environment oracle
for external-command success), and the IRQ affinity planner.  Machine
strings are Lean strings; Python dicts are association lists; exceptions
are explicit result values; external side effects are trace events.
-/

deriving instance DecidableEq for Except

namespace DelaySimModel

/-- Single-quote character (ASCII 39), used when building echo commands. -/
def sq : String := String.singleton (Char.ofNat 39)

/-- Left-pad a string with the digit zero to width `w`, as Python rjust. -/
def rjust0 (w : Nat) (s : String) : String :=
  if s.length < w then String.mk (List.replicate (w - s.length) (Char.ofNat 48)) ++ s
  else s

/-- Lowercase hexadecimal rendering of a natural number with no 0x marker,
as Python hex(n)[2:] for nonnegative n. -/
def hex_str (n : Nat) : String := String.mk (Nat.toDigits 16 n)

/-- Embedding of DelaySim.corenum_to_bitmask (delay.py lines 380-393).
Raising NotImplementedError is modelled as the error result. -/
def corenum_to_bitmask (core : Nat) : Except Unit String :=
  if core > 64 then Except.error ()
  else
    let bitmask := hex_str (1 <<< core)
    if bitmask.length < 9 then
      Except.ok ((String.mk (List.replicate 8 (Char.ofNat 48))) ++ "," ++ rjust0 8 bitmask)
    else
      let b := rjust0 16 bitmask
      Except.ok (String.mk (b.data.take 8) ++ "," ++ String.mk ((b.data.drop 8).take 8))

/-- Modelled from the spec: the two-group, comma-separated, zero-padded
lowercase-hexadecimal rendering of the single-bit mask 1 <<< core: the high
32-bit half then the low 32-bit half, each as 8 zero-padded hex digits. -/
def bitmask_spec_render (core : Nat) : String :=
  rjust0 8 (hex_str ((1 <<< core) / 2 ^ 32)) ++ "," ++ rjust0 8 (hex_str ((1 <<< core) % 2 ^ 32))

/-- Lower bound of the bridge-identifier draw random.randint(10,100000)
(delay.py line 219), inclusive. -/
def bridge_id_lo : Int := 10

/-- Upper bound of the bridge-identifier draw random.randint(10,100000)
(delay.py line 219), inclusive. -/
def bridge_id_hi : Int := 100000

/-- Embedding of the identifier-assignment loop at the end of
DelaySim.read_state (delay.py lines 225-227): every member interface whose
state entry is missing is assigned the freshly drawn bridge id r; a dict
insertion of a new key appends it.  Existing entries are left untouched. -/
def assign_ids (r : Int) : List (String × Int) → List String → List (String × Int)
  | st, [] => st
  | st, i :: rest =>
      assign_ids r (if (st.lookup i).isSome then st else st ++ [(i, r)]) rest

/-- The generator expression state[idx] for idx in self.interfaces inside
DelaySim.get_bridge_id (delay.py line 341): all lookups, or none when some
interface is missing from the state (a KeyError in the source). -/
def lookup_all (st : List (String × Int)) : List String → Option (List Int)
  | [] => some []
  | i :: rest =>
      match st.lookup i, lookup_all st rest with
      | some v, some vs => some (v :: vs)
      | _, _ => none

/-- Embedding of DelaySim.get_bridge_id (delay.py lines 340-346).
list(set(vals)) having more than one element is exactly vals.dedup having
length above one; that case prints an error and exits with code 1,
modelled as Except.error 1.  A missing state entry (KeyError) or an empty
interface list (IndexError on bridge_list[0]) are uncaught exceptions in
the source, modelled as Except.error 0; they do not occur after read_state
has filled every member entry. -/
def get_bridge_id (st : List (String × Int)) (ifaces : List String) : Except Nat Int :=
  match lookup_all st ifaces with
  | none => Except.error 0
  | some vals =>
      if 1 < vals.dedup.length then Except.error 1
      else
        match vals.head? with
        | some v => Except.ok v
        | none => Except.error 0

/-- External side effects of one run.  Operator-facing print statements are
not modelled (the spec places logging outside the core): a trace records
executed external commands, kernel pseudo-file writes, the bridge-existence
probe, persisted-state writes, and the command previews echoed by show-only
mode. -/
inductive Eff where
  | runCmd (cmd : String)
  | fileWrite (path content : String)
  | probe (cmd : String)
  | stateWrite (st : List (String × Int))
  | showCmd (cmd : String)
  deriving DecidableEq

/-- Outcome of a traced computation: normal return, a raised ValueError, a
raised NotImplementedError, or a process exit with the given code. -/
inductive Res where
  | ok
  | valueError
  | notImplemented
  | exit (code : Nat)
  deriving DecidableEq

/-- Sequence two traced computations; the second runs only when the first
finished normally (an exception propagates past the rest of the block). -/
def and_then (x y : List Eff × Res) : List Eff × Res :=
  match x with
  | (evts, Res.ok) => (evts ++ y.1, y.2)
  | _ => x

/-- Sequence a list of traced computations in order. -/
def seq_all : List (List Eff × Res) → List Eff × Res
  | [] => ([], Res.ok)
  | x :: rest => and_then x (seq_all rest)

/-- A try/except ValueError block: the exception is swallowed (the warning
print is not modelled) and execution continues; other outcomes pass
through. -/
def catch_value_error (x : List Eff × Res) : List Eff × Res :=
  match x with
  | (evts, Res.valueError) => (evts, Res.ok)
  | _ => x

/-- Python str.replace removing every single-quote character. -/
def strip_quotes (s : String) : String :=
  String.mk (s.data.filter (fun c => c ≠ Char.ofNat 39))

/-- Python str.split(sep) for a one-character separator: split at every
separator occurrence, keeping empty pieces; the empty string yields one
empty piece. -/
def split_on_char (sep : Char) : List Char → List (List Char)
  | [] => [[]]
  | c :: rest =>
      let r := split_on_char sep rest
      if c = sep then [] :: r
      else (c :: r.headD []) :: r.tail

/-- Python str.split(" "): split at every single space character, keeping
empty pieces; the empty string yields one empty piece. -/
def split_spaces : List Char → List (List Char)
  | [] => [[]]
  | c :: rest =>
      let r := split_spaces rest
      if c = Char.ofNat 32 then [] :: r
      else (c :: r.headD []) :: r.tail

/-- Python "/".join: concatenate with slashes in between. -/
def join_slash : List String → String
  | [] => ""
  | a :: rest => rest.foldl (fun acc s2 => acc ++ "/" ++ s2) a

/-- The token list cmd.split(" ") of a command string. -/
def command_tokens (cmd : String) : List String :=
  (split_spaces cmd.data).map String.mk

/-- First space-delimited token of a command string. -/
def first_token (cmd : String) : String := (command_tokens cmd).headD ""

/-- The DelaySim instance data: constructor arguments plus the three mode
flags and the state mapping as it stands after read_state has run. -/
structure DelaySim where
  interfaces : List String
  interface_core_mapping : List (String × Nat)
  kernel_tweaks : List (String × String)
  delay : String
  queues_per_interface : Nat
  show_only : Bool
  verbose : Bool
  force : Bool
  state : List (String × Int)

/-- Embedding of DelaySim.process_external_command (delay.py lines
355-378).  env reports whether a given external command would exit zero.
In show-only mode the command is only echoed and the call always succeeds.
Otherwise the command is split on spaces; a command whose first token is
echo is handled by writing token 1 (single quotes removed) to the file
named by token 3 — every echo command the script builds has at least four
tokens — and any other command is executed, raising ValueError exactly when
the process exits non-zero. -/
def process_external_command (sim : DelaySim) (env : String → Bool) (cmd : String) :
    List Eff × Res :=
  if sim.show_only then ([Eff.showCmd cmd], Res.ok)
  else
    let command_list := command_tokens cmd
    if first_token cmd = "echo" then
      ([Eff.fileWrite (command_list.getD 3 "") (strip_quotes (command_list.getD 1 ""))],
        Res.ok)
    else if env cmd then ([Eff.runCmd cmd], Res.ok)
    else ([Eff.runCmd cmd], Res.valueError)

/-- The kernel pseudo-file write performed by the echo branch of
process_external_command: token 3 names the file, token 1 with single
quotes removed is the content. -/
def echo_write_eff (cmd : String) : Eff :=
  Eff.fileWrite ((command_tokens cmd).getD 3 "")
    (strip_quotes ((command_tokens cmd).getD 1 ""))

/-- Command string for bringing a member interface up in promiscuous mode
with no address (delay.py line 277). -/
def if_up_cmd (i : String) : String := "ifconfig " ++ i ++ " 0.0.0.0 promisc up"

/-- Command string for bringing a member interface down (delay.py 241). -/
def if_down_cmd (i : String) : String := "ifconfig " ++ i ++ " down"

/-- Command string creating the bridge device (delay.py line 279). -/
def addbr_cmd (bid : Int) : String := "brctl addbr br" ++ toString bid

/-- Command string attaching a member interface to the bridge (line 282). -/
def addif_cmd (bid : Int) (i : String) : String :=
  "brctl addif br" ++ toString bid ++ " " ++ i

/-- Command string bringing the bridge up (delay.py line 283). -/
def br_up_cmd (bid : Int) : String := "ifconfig br" ++ toString bid ++ " up"

/-- Command string bringing the bridge down (delay.py line 252). -/
def br_down_cmd (bid : Int) : String := "ifconfig br" ++ toString bid ++ " down"

/-- Command string deleting the bridge (delay.py line 253). -/
def delbr_cmd (bid : Int) : String := "brctl delbr br" ++ toString bid

/-- Command string applying the performance governor (delay.py line 285). -/
def cpufreq_cmd : String := "cpufreq-set -r -g performance"

/-- Command string killing the IRQ-rebalance daemon (delay.py line 269). -/
def killall_cmd : String := "killall irqbalance"

/-- An echo command as the script formats them (delay.py lines 289 and
328): the value wrapped in single quotes, a shell redirect, the target
file. -/
def echo_cmd_str (value target : String) : String :=
  "echo " ++ sq ++ value ++ sq ++ " > " ++ target

/-- Command string writing one kernel tweak (delay.py line 289): dots of
the parameter path become slashes under /proc/sys. -/
def kernel_tweak_cmd (key value : String) : String :=
  echo_cmd_str value
    ("/proc/sys/" ++ join_slash ((split_on_char (Char.ofNat 46) key.data).map String.mk))

/-- Command string attaching the delay qdisc for one queue (line 294). -/
def tc_add_cmd (delay i : String) (q : Nat) : String :=
  "tc qdisc add dev " ++ i ++ " parent :" ++ toString q ++ " netem delay " ++
    delay ++ " limit 100000"

/-- Command string removing the delay qdisc for one queue (line 246). -/
def tc_del_cmd (delay i : String) (q : Nat) : String :=
  "tc qdisc del dev " ++ i ++ " parent :" ++ toString q ++ " netem delay " ++
    delay ++ " limit 1000000"

/-- The bridge-existence probe command of is_setup_done (line 350). -/
def probe_cmd (bid : Int) : String := "ifconfig br" ++ toString bid

/-- Python range(1, q + 1): queue indices 1 through q. -/
def queue_range (q : Nat) : List Nat := (List.range q).map (fun k => k + 1)

/-- Embedding of DelaySim.delete_state's removal loop (delay.py 201-203):
every member interface's entry is popped from the state mapping. -/
def delete_entries : List (String × Int) → List String → List (String × Int)
  | st, [] => st
  | st, i :: rest => delete_entries (st.filter (fun p => p.1 ≠ i)) rest

/-- Steps 2-8 of the setup transition (delay.py 267-300), after the
already-configured guard: the killall failure is caught; interface-up,
bridge and governor command failures are uncaught; kernel tweaks are
echo writes; the try/except around the delay-queue attach encloses the
whole nested interface/queue loop; state is saved at the end. -/
def setup_body (sim : DelaySim) (env : String → Bool) (bid : Int) : List Eff × Res :=
  let pe := process_external_command sim env
  seq_all [
    catch_value_error (pe killall_cmd),
    seq_all (sim.interfaces.map (fun i => pe (if_up_cmd i))),
    pe (addbr_cmd bid),
    seq_all (sim.interfaces.map (fun i => pe (addif_cmd bid i))),
    pe (br_up_cmd bid),
    pe cpufreq_cmd,
    seq_all (sim.kernel_tweaks.map (fun kv => pe (kernel_tweak_cmd kv.1 kv.2))),
    catch_value_error (seq_all (sim.interfaces.map (fun i =>
      seq_all ((queue_range sim.queues_per_interface).map
        (fun q => pe (tc_add_cmd sim.delay i q)))))),
    ([Eff.stateWrite sim.state], Res.ok)]

/-- Steps 2-5 of the teardown transition (delay.py 238-254), after the
not-configured guard: interface-down failures are uncaught; each
delay-queue removal is individually wrapped in try/except ValueError; the
bridge is brought down and deleted; the group's entries are removed from
the state, which is then saved. -/
def teardown_body (sim : DelaySim) (env : String → Bool) (bid : Int) : List Eff × Res :=
  let pe := process_external_command sim env
  seq_all [
    seq_all (sim.interfaces.map (fun i => pe (if_down_cmd i))),
    seq_all (sim.interfaces.map (fun i =>
      seq_all ((queue_range sim.queues_per_interface).map
        (fun q => catch_value_error (pe (tc_del_cmd sim.delay i q)))))),
    pe (br_down_cmd bid),
    pe (delbr_cmd bid),
    ([Eff.stateWrite (delete_entries sim.state sim.interfaces)], Res.ok)]

/-- Embedding of DelaySim.initial_setup (delay.py 257-300) as its effect
trace.  get_bridge_id (reached through is_setup_done and the bridge
commands) can exit with code 1 on inconsistent state; the bridge id is
computed once here because the state does not change between the source's
repeated calls.  The probe runs first, even in show-only mode; the force
flag overrides the already-configured guard. -/
def initial_setup (sim : DelaySim) (env : String → Bool) : List Eff × Res :=
  match get_bridge_id sim.state sim.interfaces with
  | Except.error n => ([], Res.exit n)
  | Except.ok bid =>
      let probe_evts : List Eff := [Eff.probe (probe_cmd bid)]
      let done := env (probe_cmd bid)
      if done && !sim.force then (probe_evts, Res.ok)
      else
        let body := setup_body sim env bid
        (probe_evts ++ body.1, body.2)

/-- Embedding of DelaySim.teardown_setup (delay.py 229-255) as its effect
trace.  The probe runs first, even in show-only mode; the not-configured
guard stops unless force is set. -/
def teardown_setup (sim : DelaySim) (env : String → Bool) : List Eff × Res :=
  match get_bridge_id sim.state sim.interfaces with
  | Except.error n => ([], Res.exit n)
  | Except.ok bid =>
      let probe_evts : List Eff := [Eff.probe (probe_cmd bid)]
      let done := env (probe_cmd bid)
      if !done && !sim.force then (probe_evts, Res.ok)
      else
        let body := teardown_body sim env bid
        (probe_evts ++ body.1, body.2)

/-- The delay-queue attach commands of setup in loop order: for every
member interface, every queue index 1..queue count. -/
def tc_add_cmds (sim : DelaySim) : List String :=
  sim.interfaces.flatMap (fun i =>
    (queue_range sim.queues_per_interface).map (fun q => tc_add_cmd sim.delay i q))

/-- The delay-queue removal commands of teardown in loop order. -/
def tc_del_cmds (sim : DelaySim) : List String :=
  sim.interfaces.flatMap (fun i =>
    (queue_range sim.queues_per_interface).map (fun q => tc_del_cmd sim.delay i q))

/-- Every external command of the setup transition body, in source order:
the irqbalance kill, the interface-up commands, bridge create, the
bridge-attach commands, bridge up, the governor command, one echo command
per kernel tweak, then every delay-queue attach command. -/
def setup_cmds (sim : DelaySim) (bid : Int) : List String :=
  [killall_cmd] ++ sim.interfaces.map if_up_cmd ++ [addbr_cmd bid] ++
    sim.interfaces.map (addif_cmd bid) ++ [br_up_cmd bid, cpufreq_cmd] ++
    sim.kernel_tweaks.map (fun kv => kernel_tweak_cmd kv.1 kv.2) ++ tc_add_cmds sim

/-- Every external command of the teardown transition body, in source
order. -/
def teardown_cmds (sim : DelaySim) (bid : Int) : List String :=
  sim.interfaces.map if_down_cmd ++ tc_del_cmds sim ++ [br_down_cmd bid, delbr_cmd bid]

/-- Modelled from the spec (claim C8): the command sequence the claim says
show-only setup emits — interface-up commands, one bridge-create, the
bridge-attach commands, bridge-up, the governor command, one command per
kernel tweak, then the delay-attach commands, with nothing else before or
between.  It differs from setup_cmds by omitting the irqbalance kill. -/
def c8_claimed_cmds (sim : DelaySim) (bid : Int) : List String :=
  sim.interfaces.map if_up_cmd ++ [addbr_cmd bid] ++
    sim.interfaces.map (addif_cmd bid) ++ [br_up_cmd bid, cpufreq_cmd] ++
    sim.kernel_tweaks.map (fun kv => kernel_tweak_cmd kv.1 kv.2) ++ tc_add_cmds sim

/-- The commands actually attempted by a sequence of uncaught external
commands: every command up to and including the first failing one. -/
def attempts_until_failure (env : String → Bool) : List String → List String
  | [] => []
  | c :: rest => if env c then c :: attempts_until_failure env rest else [c]

/-- The show-only command previews contained in a trace, in order. -/
def shown_cmds (evts : List Eff) : List String :=
  evts.filterMap (fun e => match e with
    | Eff.showCmd c => some c
    | _ => none)

/-- Whether a trace event is an effect issued by the command executor: a
real external command run or a kernel pseudo-file write. -/
def is_executor_effect (e : Eff) : Bool :=
  match e with
  | Eff.runCmd _ => true
  | Eff.fileWrite _ _ => true
  | _ => false

/-- Concrete instance used for counterexamples and witnesses: the spec's
end-to-end scenario — members nic0 and nic1, two queues per interface, a
10ms delay, one kernel tweak, show-only mode, and the state read_state
produces from a missing state file with draw 42. -/
def sample_sim : DelaySim :=
  { interfaces := ["nic0", "nic1"]
    interface_core_mapping := [("nic0-tx", 10), ("nic0-rx", 30)]
    kernel_tweaks := [("net.core.rmem_max", "16777216")]
    delay := "10ms"
    queues_per_interface := 2
    show_only := true
    verbose := false
    force := false
    state := assign_ids 42 [] ["nic0", "nic1"] }

/-- The sample instance outside show-only mode. -/
def sample_ns : DelaySim :=
  { sample_sim with show_only := false }

/-- Environment in which every external command fails (in particular the
bridge-existence probe reports no bridge). -/
def env_none : String → Bool := fun _ => false

/-- Environment in which every external command succeeds. -/
def env_all : String → Bool := fun _ => true

/-- Environment in which the probe finds no bridge and the first
delay-queue attach command fails, while everything else succeeds. -/
def env_fail_tc1 : String → Bool :=
  fun c => !(c == tc_add_cmd "10ms" "nic0" 1 || c == probe_cmd 42)

/-- The scenario of claim C8 parameterized by the kernel-tweak set, the
delay string and the random draw: members nic0 and nic1, queue count 2,
show-only mode, no pre-existing state (read_state assigns the draw r to
both members). -/
def c8_sim (kt : List (String × String)) (d : String) (r : Int) : DelaySim :=
  { interfaces := ["nic0", "nic1"]
    interface_core_mapping := []
    kernel_tweaks := kt
    delay := d
    queues_per_interface := 2
    show_only := true
    verbose := false
    force := false
    state := assign_ids r [] ["nic0", "nic1"] }

/-- Python substring membership: needle in hay. -/
def contains_sub (needle : List Char) : List Char → Bool
  | [] => needle.isEmpty
  | c :: rest => needle.isPrefixOf (c :: rest) || contains_sub needle rest

/-- The inner loop of process_irq_values (delay.py 313-314, 338): the
first tracked interface key, in mapping order, that occurs as a substring
of the line; the loop breaks after the first match, so later keys are not
tested against the line. -/
def first_key (keys : List String) (line : String) : Option String :=
  keys.find? (fun k => contains_sub k.data line.data)

/-- The whitespace characters Python str.strip removes. -/
def is_py_space (c : Char) : Bool :=
  c = Char.ofNat 32 || c = Char.ofNat 9 || c = Char.ofNat 10 ||
    c = Char.ofNat 13 || c = Char.ofNat 11 || c = Char.ofNat 12

/-- Python str.strip: leading and trailing whitespace removed. -/
def py_strip (cs : List Char) : List Char :=
  ((cs.dropWhile is_py_space).reverse.dropWhile is_py_space).reverse

/-- The colon-delimited fields of a stripped interrupt-table line:
line.strip().split(":") (delay.py line 315). -/
def irq_elements (line : String) : List String :=
  (split_on_char (Char.ofNat 58) (py_strip line.data)).map String.mk

/-- The IRQ identifier token of a line: its first colon field. -/
def irq_id_of (line : String) : String := (irq_elements line).headD ""

/-- One processed match of the IRQ loop: the matched interface key, the
counter value at the time of the match (the 0-indexed occurrence), the
IRQ identifier token, and the computed target core. -/
structure IrqMatch where
  iface : String
  occurrence : Nat
  irq_id : String
  core : Nat
  deriving DecidableEq

/-- The per-interface occurrence counters, initialized to zero for every
mapping key: dict.fromkeys(self.interface_core_mapping, 0). -/
def irq_counters_init (mapping : List (String × Nat)) : List (String × Nat) :=
  mapping.map (fun p => (p.1, 0))

/-- The dict update interface_irq[interface] += 1. -/
def bump_counter : List (String × Nat) → String → List (String × Nat)
  | [], _ => []
  | (k, n) :: rest, i =>
      if k = i then (k, n + 1) :: rest else (k, n) :: bump_counter rest i

/-- Embedding of the loop of DelaySim.process_irq_values (delay.py
302-338) over the given interrupt-table lines and counter dict.  Returns
the effect trace, the matches processed in order, and the outcome: a
matched line with fewer than two colon fields raises ValueError; the
bitmask is computed in every mode, so a target core above 64 raises
NotImplementedError from corenum_to_bitmask in every mode; the
show_existing and report modes only print (not modelled); configure mode
issues the affinity write through the command executor.  The counter is
incremented after every match, in every mode. -/
def process_irq_lines (sim : DelaySim) (env : String → Bool)
    (configure show_existing : Bool) :
    List String → List (String × Nat) → List Eff × (List IrqMatch × Res)
  | [], _ => ([], ([], Res.ok))
  | line :: rest, counters =>
      match first_key (counters.map Prod.fst) line with
      | none => process_irq_lines sim env configure show_existing rest counters
      | some k =>
          if (irq_elements line).length < 2 then ([], ([], Res.valueError))
          else
            let core := (sim.interface_core_mapping.lookup k).getD 0
            let counter := (counters.lookup k).getD 0
            match corenum_to_bitmask (core + counter) with
            | Except.error _ => ([], ([], Res.notImplemented))
            | Except.ok bitmask =>
                let m : IrqMatch := ⟨k, counter, irq_id_of line, core + counter⟩
                let step : List Eff × Res :=
                  if show_existing then ([], Res.ok)
                  else if configure then
                    process_external_command sim env
                      (echo_cmd_str bitmask ("/proc/irq/" ++ irq_id_of line ++ "/smp_affinity"))
                  else ([], Res.ok)
                match step.2 with
                | Res.ok =>
                    let next := process_irq_lines sim env configure show_existing rest
                      (bump_counter counters k)
                    (step.1 ++ next.1, (m :: next.2.1, next.2.2))
                | r => (step.1, ([m], r))

/-- Embedding of DelaySim.process_irq_values: the loop run over the table
lines with counters initialized from the mapping keys. -/
def process_irq_values (sim : DelaySim) (env : String → Bool)
    (configure show_existing : Bool) (lines : List String) :
    List Eff × (List IrqMatch × Res) :=
  process_irq_lines sim env configure show_existing lines
    (irq_counters_init sim.interface_core_mapping)

/-- Sample instance for the IRQ planner: two tracked keys and a small
interrupt table in which key eth0-tx matches lines 0 and 2 and key
eth0-rx matches line 1. -/
def irq_sim : DelaySim :=
  { sample_sim with interface_core_mapping := [("eth0-tx", 10), ("eth0-rx", 30)] }

/-- Sample interrupt-table lines for the IRQ planner. -/
def irq_lines : List String :=
  [" 24:  0  PCI eth0-tx-0", " 25:  1  PCI eth0-rx-0", " 26:  2  PCI eth0-tx-1",
    " 27:  3  PCI other"]

/-- Four lowercase hexadecimal digits of a value below 2^16. -/
def hex4 (n : Nat) : List Char :=
  [Nat.digitChar (n / 4096 % 16), Nat.digitChar (n / 256 % 16),
    Nat.digitChar (n / 16 % 16), Nat.digitChar (n % 16)]

/-- The json.dumps escaping of one character with the default ensure_ascii
setting: the double quote, the backslash and the C0 controls with short
forms get two-character escapes, the remaining controls and every
character outside printable ASCII get unicode escapes, and characters
beyond the basic multilingual plane get a surrogate pair of unicode
escapes. -/
def esc_char (c : Char) : List Char :=
  if c = Char.ofNat 34 then [Char.ofNat 92, Char.ofNat 34]
  else if c = Char.ofNat 92 then [Char.ofNat 92, Char.ofNat 92]
  else if c = Char.ofNat 8 then [Char.ofNat 92, Char.ofNat 98]
  else if c = Char.ofNat 12 then [Char.ofNat 92, Char.ofNat 102]
  else if c = Char.ofNat 10 then [Char.ofNat 92, Char.ofNat 110]
  else if c = Char.ofNat 13 then [Char.ofNat 92, Char.ofNat 114]
  else if c = Char.ofNat 9 then [Char.ofNat 92, Char.ofNat 116]
  else if c.toNat < 32 ∨ 126 < c.toNat then
    if c.toNat < 65536 then Char.ofNat 92 :: Char.ofNat 117 :: hex4 c.toNat
    else
      (Char.ofNat 92 :: Char.ofNat 117 :: hex4 (55296 + (c.toNat - 65536) / 1024)) ++
        (Char.ofNat 92 :: Char.ofNat 117 :: hex4 (56320 + (c.toNat - 65536) % 1024))
  else [c]

/-- json.dumps of a string: quoted, characters escaped. -/
def dumps_string (s : String) : List Char :=
  Char.ofNat 34 :: (s.data.flatMap esc_char ++ [Char.ofNat 34])

/-- The decimal digits of a natural number, as Python str(n). -/
def nat_digits (n : Nat) : List Char :=
  if _h : n < 10 then [Nat.digitChar n]
  else nat_digits (n / 10) ++ [Nat.digitChar (n % 10)]
  decreasing_by exact Nat.div_lt_self (by omega) (by omega)

/-- The decimal rendering of an integer, as Python str(i). -/
def int_digits (i : Int) : List Char :=
  if i < 0 then Char.ofNat 45 :: nat_digits (-i).toNat
  else nat_digits i.toNat

/-- json.dumps of one key/value pair and of a pair list with the default
", " and ": " separators. -/
def dumps_pairs : List (String × Int) → List Char
  | [] => []
  | [p] => dumps_string p.1 ++ (Char.ofNat 58 :: Char.ofNat 32 :: int_digits p.2)
  | p :: q :: rest =>
      dumps_string p.1 ++ (Char.ofNat 58 :: Char.ofNat 32 :: int_digits p.2) ++
        (Char.ofNat 44 :: Char.ofNat 32 :: dumps_pairs (q :: rest))

/-- Embedding of json.dumps(self.state) (delay.py line 207) for the flat
string-to-integer state object. -/
def json_dumps (st : List (String × Int)) : String :=
  String.mk (Char.ofNat 123 :: (dumps_pairs st ++ [Char.ofNat 125]))

/-- Value of one hexadecimal digit character. -/
def hex_val (c : Char) : Option Nat :=
  if 48 ≤ c.toNat ∧ c.toNat ≤ 57 then some (c.toNat - 48)
  else if 97 ≤ c.toNat ∧ c.toNat ≤ 102 then some (c.toNat - 87)
  else if 65 ≤ c.toNat ∧ c.toNat ≤ 70 then some (c.toNat - 55)
  else none

/-- Parse four hexadecimal digits into their value. -/
def parse_hex4 : List Char → Option (Nat × List Char)
  | a :: b :: c :: d :: rest =>
      match hex_val a, hex_val b, hex_val c, hex_val d with
      | some va, some vb, some vc, some vd =>
          some (va * 4096 + vb * 256 + vc * 16 + vd, rest)
      | _, _, _, _ => none
  | _ => none

/-- The JSON two-character escapes, as json.loads decodes them. -/
def decode_short (e : Char) : Option Char :=
  if e = Char.ofNat 34 then some (Char.ofNat 34)
  else if e = Char.ofNat 92 then some (Char.ofNat 92)
  else if e = Char.ofNat 47 then some (Char.ofNat 47)
  else if e = Char.ofNat 98 then some (Char.ofNat 8)
  else if e = Char.ofNat 102 then some (Char.ofNat 12)
  else if e = Char.ofNat 110 then some (Char.ofNat 10)
  else if e = Char.ofNat 114 then some (Char.ofNat 13)
  else if e = Char.ofNat 116 then some (Char.ofNat 9)
  else none

/-- Parse the body of a JSON string up to and including its closing
quote, decoding escapes as json.loads does: returns the decoded
characters and the remaining input.  A high surrogate escape must be
followed by a low surrogate escape; the pair decodes to one astral
character.  Fuel bounds the number of decoded characters; any value
above the input length is sufficient. -/
def parse_string_body : Nat → List Char → Option (List Char × List Char)
  | 0, _ => none
  | fuel + 1, cs =>
      match cs with
      | [] => none
      | c :: rest =>
          if c = Char.ofNat 34 then some ([], rest)
          else if c = Char.ofNat 92 then
            match rest with
            | [] => none
            | e :: rest2 =>
                if e = Char.ofNat 117 then
                  match parse_hex4 rest2 with
                  | none => none
                  | some (n, rest3) =>
                      if 55296 ≤ n ∧ n ≤ 56319 then
                        match rest3 with
                        | b1 :: u1 :: rest4 =>
                            if b1 = Char.ofNat 92 ∧ u1 = Char.ofNat 117 then
                              match parse_hex4 rest4 with
                              | none => none
                              | some (n2, rest5) =>
                                  if 56320 ≤ n2 ∧ n2 ≤ 57343 then
                                    (parse_string_body fuel rest5).map (fun p =>
                                      (Char.ofNat
                                        (65536 + (n - 55296) * 1024 + (n2 - 56320)) ::
                                          p.1, p.2))
                                  else none
                            else none
                        | _ => none
                      else if 56320 ≤ n ∧ n ≤ 57343 then none
                      else
                        (parse_string_body fuel rest3).map (fun p =>
                          (Char.ofNat n :: p.1, p.2))
                else
                  match decode_short e with
                  | none => none
                  | some ch =>
                      (parse_string_body fuel rest2).map (fun p => (ch :: p.1, p.2))
          else
            (parse_string_body fuel rest).map (fun p => (c :: p.1, p.2))

/-- Consume leading decimal digits, accumulating their value. -/
def parse_nat_loop (acc : Nat) : List Char → Nat × List Char
  | [] => (acc, [])
  | c :: rest =>
      if 48 ≤ c.toNat ∧ c.toNat ≤ 57 then
        parse_nat_loop (acc * 10 + (c.toNat - 48)) rest
      else (acc, c :: rest)

/-- Parse a JSON integer: an optional minus sign and at least one digit. -/
def parse_int : List Char → Option (Int × List Char)
  | [] => none
  | c :: rest =>
      if c = Char.ofNat 45 then
        match rest with
        | d :: _ =>
            if 48 ≤ d.toNat ∧ d.toNat ≤ 57 then
              let p := parse_nat_loop 0 rest
              some (-(p.1 : Int), p.2)
            else none
        | [] => none
      else if 48 ≤ c.toNat ∧ c.toNat ≤ 57 then
        let p := parse_nat_loop 0 (c :: rest)
        some ((p.1 : Int), p.2)
      else none

/-- Skip JSON whitespace. -/
def skip_ws (cs : List Char) : List Char :=
  cs.dropWhile (fun c =>
    c = Char.ofNat 32 || c = Char.ofNat 9 || c = Char.ofNat 10 || c = Char.ofNat 13)

/-- Parse the members of a nonempty JSON object of string keys and integer
values, consuming the closing brace: a string, a colon, an integer, then
either a comma and further members or the closing brace. -/
def parse_pairs : Nat → List Char → Option (List (String × Int) × List Char)
  | 0, _ => none
  | fuel + 1, cs =>
      match cs with
      | [] => none
      | c :: rest =>
          if c = Char.ofNat 34 then
            match parse_string_body (rest.length + 1) rest with
            | none => none
            | some (key, rem1) =>
                match skip_ws rem1 with
                | [] => none
                | c2 :: rem3 =>
                    if c2 = Char.ofNat 58 then
                      match parse_int (skip_ws rem3) with
                      | none => none
                      | some (v, rem5) =>
                          match skip_ws rem5 with
                          | [] => none
                          | c3 :: rem7 =>
                              if c3 = Char.ofNat 44 then
                                match parse_pairs fuel (skip_ws rem7) with
                                | some (ps, rem8) =>
                                    some ((String.mk key, v) :: ps, rem8)
                                | none => none
                              else if c3 = Char.ofNat 125 then
                                some ([(String.mk key, v)], rem7)
                              else none
                    else none
          else none

/-- Embedding of json.loads(data) (delay.py line 215) for flat objects of
string keys and integer values: braces, members, nothing but whitespace
after; any other document shape is a parse error (None). -/
def json_loads (s : String) : Option (List (String × Int)) :=
  match skip_ws s.data with
  | [] => none
  | c :: rest =>
      if c = Char.ofNat 123 then
        match skip_ws rest with
        | [] => none
        | c2 :: rest3 =>
            if c2 = Char.ofNat 125 then
              if (skip_ws rest3).isEmpty then some [] else none
            else
              match parse_pairs ((skip_ws rest).length + 1) (skip_ws rest) with
              | some (ps, rem) => if (skip_ws rem).isEmpty then some ps else none
              | none => none
      else none

end DelaySimModel

namespace DelaySimModel

example : corenum_to_bitmask 0 = Except.ok "00000000,00000001" := by decide
example : corenum_to_bitmask 31 = Except.ok "00000000,80000000" := by decide
example : corenum_to_bitmask 32 = Except.ok "00000001,00000000" := by decide
example : corenum_to_bitmask 64 = Except.ok "10000000,00000000" := by decide
example : bitmask_spec_render 64 = "100000000,00000000" := by decide
example : get_bridge_id [("a", 3), ("b", 4)] ["a", "b"] = Except.error 1 := by decide
example : get_bridge_id [("a", 3), ("b", 3)] ["a", "b"] = Except.ok 3 := by decide
example : assign_ids 7 [("a", 3)] ["a", "b"] = [("a", 3), ("b", 7)] := by decide

/-- Assignment never changes an entry that is already present. -/
theorem lookup_assign_ids_of_some {st : List (String × Int)} {j : String} {v : Int}
    (l : List String) (r : Int) (h : st.lookup j = some v) :
    (assign_ids r st l).lookup j = some v := by
  induction l generalizing st with
  | nil => exact h
  | cons i rest ih =>
      simp only [assign_ids]
      apply ih
      by_cases hi : (st.lookup i).isSome
      · simp [hi, h]
      · simp [hi, List.lookup_append, h]

/-- After assignment every member interface has an entry. -/
theorem lookup_assign_ids_isSome {st : List (String × Int)} {i : String}
    (l : List String) (r : Int) (h : i ∈ l) :
    ((assign_ids r st l).lookup i).isSome := by
  induction l generalizing st with
  | nil => cases h
  | cons a rest ih =>
      simp only [assign_ids]
      rcases List.mem_cons.1 h with rfl | hmem
      · have hsome : ∃ v, ((if (st.lookup i).isSome then st else st ++ [(i, r)]).lookup i)
            = some v := by
          by_cases ha : (st.lookup i).isSome
          · rcases Option.isSome_iff_exists.1 ha with ⟨v, hv⟩
            exact ⟨v, by simp [ha, hv]⟩
          · refine ⟨r, ?_⟩
            have hnone : st.lookup i = none := Option.not_isSome_iff_eq_none.1 ha
            simp [ha, List.lookup_append, hnone]
        rcases hsome with ⟨v, hv⟩
        rw [lookup_assign_ids_of_some rest r hv]
        rfl
      · exact ih hmem

/-- An interface missing from the state receives the drawn identifier. -/
theorem lookup_assign_ids_of_none {st : List (String × Int)} {i : String}
    (l : List String) (r : Int) (hnone : st.lookup i = none) (h : i ∈ l) :
    (assign_ids r st l).lookup i = some r := by
  induction l generalizing st with
  | nil => cases h
  | cons a rest ih =>
      simp only [assign_ids]
      by_cases hia : i = a
      · subst hia
        have hfalse : (st.lookup i).isSome = false := by simp [hnone]
        have hlook : (st ++ [(i, r)]).lookup i = some r := by
          simp [List.lookup_append, hnone]
        rw [if_neg (by simp [hfalse])]
        exact lookup_assign_ids_of_some rest r hlook
      · have hmem : i ∈ rest := by
          rcases List.mem_cons.1 h with heq | hm
          · exact absurd heq hia
          · exact hm
        apply ih _ hmem
        by_cases ha : (st.lookup a).isSome
        · simp [ha, hnone]
        · have hba : (i == a) = false := beq_eq_false_iff_ne.2 hia
          simp [ha, List.lookup_append, hnone, List.lookup, hba]

/-- When every member interface already has an entry, the assignment loop
leaves the state exactly as it was. -/
theorem assign_ids_of_all_some {st : List (String × Int)}
    (l : List String) (r : Int) (h : ∀ i ∈ l, (st.lookup i).isSome) :
    assign_ids r st l = st := by
  induction l with
  | nil => rfl
  | cons a rest ih =>
      simp only [assign_ids, h a (List.mem_cons_self a rest), if_pos]
      exact ih (fun i hi => h i (List.mem_cons_of_mem a hi))

/-- When every member has an entry, the lookup of all members succeeds. -/
theorem lookup_all_isSome {st : List (String × Int)}
    (l : List String) (h : ∀ i ∈ l, (st.lookup i).isSome) :
    ∃ vs, lookup_all st l = some vs := by
  induction l with
  | nil => exact ⟨[], rfl⟩
  | cons a rest ih =>
      rcases Option.isSome_iff_exists.1 (h a (List.mem_cons_self a rest)) with ⟨v, hv⟩
      rcases ih (fun i hi => h i (List.mem_cons_of_mem a hi)) with ⟨vs, hvs⟩
      exact ⟨v :: vs, by simp [lookup_all, hv, hvs]⟩

/-- The value of any member appears in the collected value list. -/
theorem mem_lookup_all {st : List (String × Int)} {i : String} {v : Int} {vs : List Int}
    (l : List String) (hall : lookup_all st l = some vs) (hmem : i ∈ l)
    (hv : st.lookup i = some v) : v ∈ vs := by
  induction l generalizing vs with
  | nil => cases hmem
  | cons a rest ih =>
      simp only [lookup_all] at hall
      rcases ha : st.lookup a with _ | va
      · rw [ha] at hall
        cases hall
      · rw [ha] at hall
        rcases hrest : lookup_all st rest with _ | vs'
        · rw [hrest] at hall
          cases hall
        · rw [hrest] at hall
          injection hall with hall
          subst hall
          by_cases hia : i = a
          · subst hia
            rw [ha] at hv
            injection hv with hv
            subst hv
            exact List.mem_cons_self _ _
          · have : i ∈ rest := by
              rcases List.mem_cons.1 hmem with heq | hm
              · exact absurd heq hia
              · exact hm
            exact List.mem_cons_of_mem _ (ih hrest this)

/-- A list containing two distinct values has more than one distinct value. -/
theorem one_lt_length_dedup {vs : List Int} {a b : Int}
    (ha : a ∈ vs) (hb : b ∈ vs) (hab : a ≠ b) : 1 < vs.dedup.length := by
  have ha' : a ∈ vs.dedup := List.mem_dedup.2 ha
  have hb' : b ∈ vs.dedup := List.mem_dedup.2 hb
  rcases hd : vs.dedup with _ | ⟨x, _ | ⟨y, t⟩⟩
  · rw [hd] at ha'
    cases ha'
  · rw [hd] at ha' hb'
    simp only [List.mem_singleton] at ha' hb'
    exact absurd (ha'.trans hb'.symm) hab
  · simp

/-- When every member maps to the same value, the collected list is that
value repeated. -/
theorem lookup_all_const {st : List (String × Int)} {v : Int}
    (l : List String) (h : ∀ i ∈ l, st.lookup i = some v) :
    lookup_all st l = some (l.map fun _ => v) := by
  induction l with
  | nil => rfl
  | cons a rest ih =>
      simp only [lookup_all, h a (List.mem_cons_self a rest),
        ih (fun i hi => h i (List.mem_cons_of_mem a hi)), List.map]

/-- Deduplicating a nonempty constant list yields the single value. -/
theorem dedup_map_const {v : Int} (l : List String) (h : l ≠ []) :
    (l.map fun _ => v).dedup = [v] := by
  induction l with
  | nil => exact absurd rfl h
  | cons a rest ih =>
      rcases hr : rest with _ | ⟨x, t⟩
      · simp
      · have hne : rest ≠ [] := by simp [hr]
        have hmem : v ∈ rest.map fun _ => v := by
          rw [hr]
          exact List.mem_cons_self _ _
        rw [List.map, List.dedup_cons_of_mem (by rw [← hr]; exact hmem), ← hr, ih hne]

/-- A group whose members all map to the same identifier yields it. -/
theorem get_bridge_id_const {st : List (String × Int)} {v : Int}
    (l : List String) (h : ∀ i ∈ l, st.lookup i = some v) (hne : l ≠ []) :
    get_bridge_id st l = Except.ok v := by
  have hla := lookup_all_const l h
  have hd := @dedup_map_const v l hne
  rcases hl : l with _ | ⟨a, rest⟩
  · exact absurd hl hne
  · subst hl
    simp only [get_bridge_id, hla, hd, List.length_singleton]
    norm_num

/-- A list of characters without spaces is a single token. -/
theorem split_spaces_no_space (cs : List Char) (h : ∀ c ∈ cs, c ≠ Char.ofNat 32) :
    split_spaces cs = [cs] := by
  induction cs with
  | nil => rfl
  | cons c rest ih =>
      have hc : c ≠ Char.ofNat 32 := h c (List.mem_cons_self _ _)
      have ih' := ih (fun x hx => h x (List.mem_cons_of_mem _ hx))
      simp [split_spaces, ih', hc]

/-- Splitting at the first space: a space-free prefix becomes the first
token. -/
theorem split_spaces_append (pre rest : List Char)
    (h : ∀ c ∈ pre, c ≠ Char.ofNat 32) :
    split_spaces (pre ++ Char.ofNat 32 :: rest) = pre :: split_spaces rest := by
  induction pre with
  | nil => simp [split_spaces]
  | cons c cs ih =>
      have hc : c ≠ Char.ofNat 32 := h c (List.mem_cons_self _ _)
      have ih' := ih (fun x hx => h x (List.mem_cons_of_mem _ hx))
      simp [split_spaces, ih', hc]

/-- The first token of a command whose data splits as a space-free prefix,
a space, and a remainder. -/
theorem first_token_eq (cmd : String) (pre rest : List Char)
    (hdata : cmd.data = pre ++ Char.ofNat 32 :: rest)
    (h : ∀ c ∈ pre, c ≠ Char.ofNat 32) :
    first_token cmd = String.mk pre := by
  simp [first_token, command_tokens, hdata, split_spaces_append pre rest h]

/-- The full token list of an echo command with a space-free value and a
space-free target. -/
theorem command_tokens_echo (value target : String)
    (hv : ∀ c ∈ value.data, c ≠ Char.ofNat 32)
    (ht : ∀ c ∈ target.data, c ≠ Char.ofNat 32) :
    command_tokens (echo_cmd_str value target) =
      ["echo", sq ++ value ++ sq, ">", target] := by
  have hdata : (echo_cmd_str value target).data =
      ['e', 'c', 'h', 'o'] ++ Char.ofNat 32 ::
        ((Char.ofNat 39 :: value.data ++ [Char.ofNat 39]) ++ Char.ofNat 32 ::
          (['>'] ++ Char.ofNat 32 :: target.data)) := by
    simp [echo_cmd_str, sq]
  have hq : ∀ c ∈ Char.ofNat 39 :: value.data ++ [Char.ofNat 39], c ≠ Char.ofNat 32 := by
    intro c hc
    rcases List.mem_cons.1 hc with rfl | hc2
    · decide
    · rcases List.mem_append.1 hc2 with hcv | hcq
      · exact hv c hcv
      · rcases List.mem_singleton.1 hcq with rfl
        decide
  simp only [command_tokens, hdata]
  rw [split_spaces_append _ _ (by decide), split_spaces_append _ _ hq,
    split_spaces_append _ _ (by decide), split_spaces_no_space _ ht]
  simp [sq]
  rfl

/-- The full token list of an echo command whose value contains exactly one
space: the token positions shift by one, so token 3 is the redirect
symbol. -/
theorem command_tokens_echo_spaced (v1 v2 target : String)
    (hv1 : ∀ c ∈ v1.data, c ≠ Char.ofNat 32)
    (hv2 : ∀ c ∈ v2.data, c ≠ Char.ofNat 32)
    (ht : ∀ c ∈ target.data, c ≠ Char.ofNat 32) :
    command_tokens (echo_cmd_str (v1 ++ " " ++ v2) target) =
      ["echo", sq ++ v1, v2 ++ sq, ">", target] := by
  have hdata : (echo_cmd_str (v1 ++ " " ++ v2) target).data =
      ['e', 'c', 'h', 'o'] ++ Char.ofNat 32 ::
        ((Char.ofNat 39 :: v1.data) ++ Char.ofNat 32 ::
          ((v2.data ++ [Char.ofNat 39]) ++ Char.ofNat 32 ::
            (['>'] ++ Char.ofNat 32 :: target.data))) := by
    simp [echo_cmd_str, sq]
  have hq1 : ∀ c ∈ Char.ofNat 39 :: v1.data, c ≠ Char.ofNat 32 := by
    intro c hc
    rcases List.mem_cons.1 hc with rfl | hc2
    · decide
    · exact hv1 c hc2
  have hq2 : ∀ c ∈ v2.data ++ [Char.ofNat 39], c ≠ Char.ofNat 32 := by
    intro c hc
    rcases List.mem_append.1 hc with hcv | hcq
    · exact hv2 c hcv
    · rcases List.mem_singleton.1 hcq with rfl
      decide
  simp only [command_tokens, hdata]
  rw [split_spaces_append _ _ (by decide), split_spaces_append _ _ hq1,
    split_spaces_append _ _ hq2, split_spaces_append _ _ (by decide),
    split_spaces_no_space _ ht]
  simp [sq]
  exact ⟨rfl, rfl⟩

/-- The full token list of an echo command whose value contains exactly
two spaces: token 3 is the third word of the value with the closing quote
appended. -/
theorem command_tokens_echo_spaced2 (v1 v2 v3 target : String)
    (hv1 : ∀ c ∈ v1.data, c ≠ Char.ofNat 32)
    (hv2 : ∀ c ∈ v2.data, c ≠ Char.ofNat 32)
    (hv3 : ∀ c ∈ v3.data, c ≠ Char.ofNat 32)
    (ht : ∀ c ∈ target.data, c ≠ Char.ofNat 32) :
    command_tokens (echo_cmd_str (v1 ++ " " ++ v2 ++ " " ++ v3) target) =
      ["echo", sq ++ v1, v2, v3 ++ sq, ">", target] := by
  have hdata : (echo_cmd_str (v1 ++ " " ++ v2 ++ " " ++ v3) target).data =
      ['e', 'c', 'h', 'o'] ++ Char.ofNat 32 ::
        ((Char.ofNat 39 :: v1.data) ++ Char.ofNat 32 ::
          (v2.data ++ Char.ofNat 32 ::
            ((v3.data ++ [Char.ofNat 39]) ++ Char.ofNat 32 ::
              (['>'] ++ Char.ofNat 32 :: target.data)))) := by
    simp [echo_cmd_str, sq]
  have hq1 : ∀ c ∈ Char.ofNat 39 :: v1.data, c ≠ Char.ofNat 32 := by
    intro c hc
    rcases List.mem_cons.1 hc with rfl | hc2
    · decide
    · exact hv1 c hc2
  have hq3 : ∀ c ∈ v3.data ++ [Char.ofNat 39], c ≠ Char.ofNat 32 := by
    intro c hc
    rcases List.mem_append.1 hc with hcv | hcq
    · exact hv3 c hcv
    · rcases List.mem_singleton.1 hcq with rfl
      decide
  simp only [command_tokens, hdata]
  rw [split_spaces_append _ _ (by decide), split_spaces_append _ _ hq1,
    split_spaces_append _ _ hv2, split_spaces_append _ _ hq3,
    split_spaces_append _ _ (by decide), split_spaces_no_space _ ht]
  simp [sq]
  exact ⟨rfl, rfl⟩

/-- The token-list prefix of an echo command whose value contains three or
more spaces (the fourth word is arbitrary and may contain further
spaces): token 3 is the value's third word, plain. -/
theorem command_tokens_echo_spaced3 (v1 v2 v3 v4 target : String)
    (hv1 : ∀ c ∈ v1.data, c ≠ Char.ofNat 32)
    (hv2 : ∀ c ∈ v2.data, c ≠ Char.ofNat 32)
    (hv3 : ∀ c ∈ v3.data, c ≠ Char.ofNat 32) :
    command_tokens (echo_cmd_str (v1 ++ " " ++ v2 ++ " " ++ v3 ++ " " ++ v4) target) =
      ["echo", sq ++ v1, v2, v3] ++
        (split_spaces (v4.data ++ [Char.ofNat 39] ++ Char.ofNat 32 ::
          (['>'] ++ Char.ofNat 32 :: target.data))).map String.mk := by
  have hdata : (echo_cmd_str (v1 ++ " " ++ v2 ++ " " ++ v3 ++ " " ++ v4) target).data =
      ['e', 'c', 'h', 'o'] ++ Char.ofNat 32 ::
        ((Char.ofNat 39 :: v1.data) ++ Char.ofNat 32 ::
          (v2.data ++ Char.ofNat 32 ::
            (v3.data ++ Char.ofNat 32 ::
              (v4.data ++ [Char.ofNat 39] ++ Char.ofNat 32 ::
                (['>'] ++ Char.ofNat 32 :: target.data))))) := by
    simp [echo_cmd_str, sq]
  have hq1 : ∀ c ∈ Char.ofNat 39 :: v1.data, c ≠ Char.ofNat 32 := by
    intro c hc
    rcases List.mem_cons.1 hc with rfl | hc2
    · decide
    · exact hv1 c hc2
  simp only [command_tokens, hdata]
  rw [split_spaces_append _ _ (by decide), split_spaces_append _ _ hq1,
    split_spaces_append _ _ hv2, split_spaces_append _ _ hv3]
  simp [sq]
  rfl

/-- Removing quotes from a quote-wrapped string removes the added quotes
and any quotes inside. -/
theorem strip_quotes_wrap (v : String) :
    strip_quotes (sq ++ v ++ sq) = strip_quotes v := by
  simp [strip_quotes, sq]

/-- Removing quotes after prepending one quote. -/
theorem strip_quotes_open (v : String) :
    strip_quotes (sq ++ v) = strip_quotes v := by
  simp [strip_quotes, sq]

/-- In show-only mode the executor echoes the command and succeeds. -/
theorem pec_show (sim : DelaySim) (env : String → Bool) (cmd : String)
    (h : sim.show_only = true) :
    process_external_command sim env cmd = ([Eff.showCmd cmd], Res.ok) := by
  simp [process_external_command, h]

/-- Outside show-only mode a non-echo command is run, raising ValueError
exactly when the environment reports a non-zero exit. -/
theorem pec_not_echo (sim : DelaySim) (env : String → Bool) (cmd : String)
    (hshow : sim.show_only = false) (h : first_token cmd ≠ "echo") :
    process_external_command sim env cmd =
      ([Eff.runCmd cmd], if env cmd then Res.ok else Res.valueError) := by
  by_cases he : env cmd <;> simp [process_external_command, hshow, h, he]

/-- Outside show-only mode an echo command writes token 1 (quotes removed)
to the file named by token 3 and always succeeds. -/
theorem pec_echo (sim : DelaySim) (env : String → Bool) (cmd : String)
    (hshow : sim.show_only = false) (h : first_token cmd = "echo") :
    process_external_command sim env cmd = ([echo_write_eff cmd], Res.ok) := by
  simp [process_external_command, hshow, h, echo_write_eff]

/-- The first token of every tc command is tc. -/
theorem first_token_tc_add (d i : String) (q : Nat) :
    first_token (tc_add_cmd d i q) = "tc" := by
  refine first_token_eq _ ['t', 'c']
    ("qdisc add dev ".data ++ (i.data ++ (" parent :".data ++ ((toString q).data ++
      (" netem delay ".data ++ (d.data ++ " limit 100000".data)))))) ?_ (by decide)
  simp [tc_add_cmd]

/-- The first token of every tc removal command is tc. -/
theorem first_token_tc_del (d i : String) (q : Nat) :
    first_token (tc_del_cmd d i q) = "tc" := by
  refine first_token_eq _ ['t', 'c']
    ("qdisc del dev ".data ++ (i.data ++ (" parent :".data ++ ((toString q).data ++
      (" netem delay ".data ++ (d.data ++ " limit 1000000".data)))))) ?_ (by decide)
  simp [tc_del_cmd]

/-- The first token of every ifconfig interface command is ifconfig. -/
theorem first_token_if_up (i : String) :
    first_token (if_up_cmd i) = "ifconfig" := by
  refine first_token_eq _ "ifconfig".data
    (i.data ++ " 0.0.0.0 promisc up".data) ?_ (by decide)
  simp [if_up_cmd]

/-- The first token of the interface-down command is ifconfig. -/
theorem first_token_if_down (i : String) :
    first_token (if_down_cmd i) = "ifconfig" := by
  refine first_token_eq _ "ifconfig".data (i.data ++ " down".data) ?_ (by decide)
  simp [if_down_cmd]

/-- The first token of the bridge-create command is brctl. -/
theorem first_token_addbr (bid : Int) :
    first_token (addbr_cmd bid) = "brctl" := by
  refine first_token_eq _ "brctl".data ("addbr br".data ++ (toString bid).data) ?_ (by decide)
  simp [addbr_cmd]

/-- The first token of the bridge-attach command is brctl. -/
theorem first_token_addif (bid : Int) (i : String) :
    first_token (addif_cmd bid i) = "brctl" := by
  refine first_token_eq _ "brctl".data
    ("addif br".data ++ ((toString bid).data ++ (" ".data ++ i.data))) ?_ (by decide)
  simp [addif_cmd]

/-- The first token of the bridge-delete command is brctl. -/
theorem first_token_delbr (bid : Int) :
    first_token (delbr_cmd bid) = "brctl" := by
  refine first_token_eq _ "brctl".data ("delbr br".data ++ (toString bid).data) ?_ (by decide)
  simp [delbr_cmd]

/-- The first token of the bridge-up command is ifconfig. -/
theorem first_token_br_up (bid : Int) :
    first_token (br_up_cmd bid) = "ifconfig" := by
  refine first_token_eq _ "ifconfig".data
    ("br".data ++ ((toString bid).data ++ " up".data)) ?_ (by decide)
  simp [br_up_cmd]

/-- The first token of the bridge-down command is ifconfig. -/
theorem first_token_br_down (bid : Int) :
    first_token (br_down_cmd bid) = "ifconfig" := by
  refine first_token_eq _ "ifconfig".data
    ("br".data ++ ((toString bid).data ++ " down".data)) ?_ (by decide)
  simp [br_down_cmd]

/-- The first token of the echo command shape is echo. -/
theorem first_token_echo_cmd (value target : String) :
    first_token (echo_cmd_str value target) = "echo" := by
  refine first_token_eq _ "echo".data
    (sq.data ++ (value.data ++ (sq.data ++ (" > ".data ++ target.data)))) ?_ (by decide)
  simp [echo_cmd_str]

/-- Every kernel-tweak command is an echo command. -/
theorem first_token_tweak (key value : String) :
    first_token (kernel_tweak_cmd key value) = "echo" := by
  unfold kernel_tweak_cmd
  exact first_token_echo_cmd _ _

/-- Sequencing after a normal completion appends the traces. -/
theorem and_then_ok (e : List Eff) (y : List Eff × Res) :
    and_then (e, Res.ok) y = (e ++ y.1, y.2) := rfl

/-- A computation that completed normally passes through the exception
handler unchanged. -/
theorem catch_of_ok (x : List Eff × Res) (h : x.2 = Res.ok) :
    catch_value_error x = x := by
  rcases x with ⟨e, r⟩
  simp only at h
  rw [h]
  rfl

/-- A caught non-echo command always contributes one attempt and
continues. -/
theorem catch_pec (sim : DelaySim) (env : String → Bool) (cmd : String)
    (hshow : sim.show_only = false) (hne : first_token cmd ≠ "echo") :
    catch_value_error (process_external_command sim env cmd) =
      ([Eff.runCmd cmd], Res.ok) := by
  rw [pec_not_echo sim env cmd hshow hne]
  by_cases he : env cmd <;> simp [he, catch_value_error]

/-- Sequencing a list of one-event successes yields their events. -/
theorem seq_all_single_ok {α : Type} (g : α → Eff) (l : List α) :
    seq_all (l.map (fun a => ([g a], Res.ok))) = (l.map g, Res.ok) := by
  induction l with
  | nil => rfl
  | cons a rest ih => simp [seq_all, and_then, ih]

/-- In show-only mode a command loop echoes each command in order. -/
theorem seq_all_show_map {α : Type} (sim : DelaySim) (env : String → Bool)
    (hshow : sim.show_only = true) (f : α → String) (l : List α) :
    seq_all (l.map (fun a => process_external_command sim env (f a))) =
      ((l.map f).map Eff.showCmd, Res.ok) := by
  induction l with
  | nil => rfl
  | cons a rest ih => simp [seq_all, pec_show sim env (f a) hshow, ih, and_then]

/-- A loop of individually caught non-echo commands attempts every command
regardless of failures. -/
theorem seq_all_catch_map {α : Type} (sim : DelaySim) (env : String → Bool)
    (hshow : sim.show_only = false) (f : α → String) (l : List α)
    (hne : ∀ a ∈ l, first_token (f a) ≠ "echo") :
    seq_all (l.map (fun a => catch_value_error (process_external_command sim env (f a)))) =
      ((l.map f).map Eff.runCmd, Res.ok) := by
  induction l with
  | nil => rfl
  | cons a rest ih =>
      have hc := catch_pec sim env (f a) hshow (hne a (List.mem_cons_self _ _))
      simp [seq_all, hc, ih (fun x hx => hne x (List.mem_cons_of_mem _ hx)), and_then]

/-- A loop of uncaught non-echo commands runs every command up to and
including the first failure, succeeding only when all succeed. -/
theorem seq_all_attempts_map {α : Type} (sim : DelaySim) (env : String → Bool)
    (hshow : sim.show_only = false) (f : α → String) (l : List α)
    (hne : ∀ a ∈ l, first_token (f a) ≠ "echo") :
    seq_all (l.map (fun a => process_external_command sim env (f a))) =
      ((attempts_until_failure env (l.map f)).map Eff.runCmd,
        if (l.map f).all env then Res.ok else Res.valueError) := by
  induction l with
  | nil => rfl
  | cons a rest ih =>
      have hc := pec_not_echo sim env (f a) hshow (hne a (List.mem_cons_self _ _))
      have ih' := ih (fun x hx => hne x (List.mem_cons_of_mem _ hx))
      by_cases he : env (f a)
      · simp [seq_all, hc, he, ih', and_then, attempts_until_failure]
      · simp [seq_all, hc, he, and_then, attempts_until_failure]

/-- A loop of uncaught commands that all succeed runs them all in order. -/
theorem seq_all_runs_map {α : Type} (sim : DelaySim) (env : String → Bool)
    (hshow : sim.show_only = false) (f : α → String) (l : List α)
    (hne : ∀ a ∈ l, first_token (f a) ≠ "echo")
    (hsucc : ∀ a ∈ l, env (f a) = true) :
    seq_all (l.map (fun a => process_external_command sim env (f a))) =
      ((l.map f).map Eff.runCmd, Res.ok) := by
  induction l with
  | nil => rfl
  | cons a rest ih =>
      have hc := pec_not_echo sim env (f a) hshow (hne a (List.mem_cons_self _ _))
      have ih' := ih (fun x hx => hne x (List.mem_cons_of_mem _ hx))
        (fun x hx => hsucc x (List.mem_cons_of_mem _ hx))
      simp [seq_all, hc, hsucc a (List.mem_cons_self _ _), ih', and_then]

/-- A loop of echo commands performs each kernel write in order. -/
theorem seq_all_echo_map {α : Type} (sim : DelaySim) (env : String → Bool)
    (hshow : sim.show_only = false) (f : α → String) (l : List α)
    (he : ∀ a ∈ l, first_token (f a) = "echo") :
    seq_all (l.map (fun a => process_external_command sim env (f a))) =
      ((l.map f).map echo_write_eff, Res.ok) := by
  induction l with
  | nil => rfl
  | cons a rest ih =>
      have hc := pec_echo sim env (f a) hshow (he a (List.mem_cons_self _ _))
      simp [seq_all, hc, ih (fun x hx => he x (List.mem_cons_of_mem _ hx)), and_then]

/-- Attempts over a prefix that fully succeeds continue into the suffix. -/
theorem attempts_append_success (env : String → Bool) (xs ys : List String)
    (h : ∀ c ∈ xs, env c = true) :
    attempts_until_failure env (xs ++ ys) = xs ++ attempts_until_failure env ys := by
  induction xs with
  | nil => rfl
  | cons c rest ih =>
      simp [attempts_until_failure, h c (List.mem_cons_self _ _),
        ih (fun x hx => h x (List.mem_cons_of_mem _ hx))]

/-- Attempts over a failing prefix never reach the suffix. -/
theorem attempts_append_failure (env : String → Bool) (xs ys : List String)
    (h : xs.all env = false) :
    attempts_until_failure env (xs ++ ys) = attempts_until_failure env xs := by
  induction xs with
  | nil => simp at h
  | cons c rest ih =>
      by_cases he : env c
      · have hrest : rest.all env = false := by
          simp [List.all_cons, he] at h
          simp [h]
        simp [attempts_until_failure, he, ih hrest]
      · simp [attempts_until_failure, he]

/-- A fully successful command list is attempted in full. -/
theorem attempts_all_success (env : String → Bool) (cmds : List String)
    (h : ∀ c ∈ cmds, env c = true) :
    attempts_until_failure env cmds = cmds := by
  induction cmds with
  | nil => rfl
  | cons c rest ih =>
      simp [attempts_until_failure, h c (List.mem_cons_self _ _),
        ih (fun x hx => h x (List.mem_cons_of_mem _ hx))]

/-- The nested show-mode delay-queue loop echoes the flattened command
list. -/
theorem seq_all_nested_show (sim : DelaySim) (env : String → Bool)
    (hshow : sim.show_only = true) (f : String → Nat → String)
    (ifl : List String) (ql : List Nat) :
    seq_all (ifl.map (fun i => seq_all (ql.map
        (fun q => process_external_command sim env (f i q))))) =
      ((ifl.flatMap (fun i => ql.map (f i))).map Eff.showCmd, Res.ok) := by
  induction ifl with
  | nil => rfl
  | cons i rest ih =>
      simp [seq_all, seq_all_show_map sim env hshow (f i) ql, ih, and_then]

/-- The nested teardown delay-queue loop attempts every pair regardless of
failures. -/
theorem seq_all_nested_catch (sim : DelaySim) (env : String → Bool)
    (hshow : sim.show_only = false) (f : String → Nat → String)
    (ifl : List String) (ql : List Nat)
    (hne : ∀ i q, first_token (f i q) ≠ "echo") :
    seq_all (ifl.map (fun i => seq_all (ql.map
        (fun q => catch_value_error (process_external_command sim env (f i q)))))) =
      ((ifl.flatMap (fun i => ql.map (f i))).map Eff.runCmd, Res.ok) := by
  induction ifl with
  | nil => rfl
  | cons i rest ih =>
      simp [seq_all, seq_all_catch_map sim env hshow (f i) ql (fun q _ => hne i q),
        ih, and_then]

/-- The nested setup delay-queue loop (whose exception handler is outside
both loops) attempts the flattened pairs only up to and including the
first failure. -/
theorem seq_all_nested_attempts (sim : DelaySim) (env : String → Bool)
    (hshow : sim.show_only = false) (f : String → Nat → String)
    (ifl : List String) (ql : List Nat)
    (hne : ∀ i q, first_token (f i q) ≠ "echo") :
    seq_all (ifl.map (fun i => seq_all (ql.map
        (fun q => process_external_command sim env (f i q))))) =
      ((attempts_until_failure env (ifl.flatMap (fun i => ql.map (f i)))).map Eff.runCmd,
        if (ifl.flatMap (fun i => ql.map (f i))).all env then Res.ok else Res.valueError) := by
  induction ifl with
  | nil => rfl
  | cons i rest ih =>
      have hinner := seq_all_attempts_map sim env hshow (f i) ql (fun q _ => hne i q)
      by_cases hall : (ql.map (f i)).all env
      · have hsucc : ∀ c ∈ ql.map (f i), env c = true := by
          intro c hc
          exact List.all_eq_true.1 hall c hc
        simp only [List.flatMap_cons, seq_all, hinner, hall, if_true,
          attempts_append_success env _ _ hsucc, List.all_append, and_then_ok, ih]
        simp [List.map_append, attempts_all_success env _ hsucc]
      · have hfalse : (List.map (f i) ql).all env = false := Bool.eq_false_iff.2 hall
        rw [List.flatMap_cons, attempts_append_failure env _ _ hfalse, List.all_append, hfalse]
        simp only [seq_all, List.map_cons, hinner, hfalse, Bool.false_and, if_false]
        simp [and_then]

/-- Show-only setup body: echoes every setup command in order, then writes
the state file. -/
theorem setup_body_show (sim : DelaySim) (env : String → Bool) (bid : Int)
    (hshow : sim.show_only = true) :
    setup_body sim env bid =
      ((setup_cmds sim bid).map Eff.showCmd ++ [Eff.stateWrite sim.state], Res.ok) := by
  have hk := pec_show sim env killall_cmd hshow
  have hb := pec_show sim env (addbr_cmd bid) hshow
  have hu := pec_show sim env (br_up_cmd bid) hshow
  have hcf := pec_show sim env cpufreq_cmd hshow
  have hifs := seq_all_show_map sim env hshow if_up_cmd sim.interfaces
  have hads := seq_all_show_map sim env hshow (addif_cmd bid) sim.interfaces
  have htw := seq_all_show_map sim env hshow
    (fun kv => kernel_tweak_cmd kv.1 kv.2) sim.kernel_tweaks
  have htc := seq_all_nested_show sim env hshow (fun i q => tc_add_cmd sim.delay i q)
    sim.interfaces (queue_range sim.queues_per_interface)
  simp only [setup_body, hk, hb, hu, hcf, hifs, hads, htw, htc]
  rw [catch_of_ok _ rfl, catch_of_ok _ rfl]
  simp [seq_all, and_then, setup_cmds, tc_add_cmds, List.map_append]

/-- Show-only teardown body: echoes every teardown command in order, then
writes the state file with the group's entries removed. -/
theorem teardown_body_show (sim : DelaySim) (env : String → Bool) (bid : Int)
    (hshow : sim.show_only = true) :
    teardown_body sim env bid =
      ((teardown_cmds sim bid).map Eff.showCmd ++
        [Eff.stateWrite (delete_entries sim.state sim.interfaces)], Res.ok) := by
  have hd := pec_show sim env (br_down_cmd bid) hshow
  have hdel := pec_show sim env (delbr_cmd bid) hshow
  have hifs := seq_all_show_map sim env hshow if_down_cmd sim.interfaces
  have htc : seq_all (sim.interfaces.map (fun i =>
      seq_all ((queue_range sim.queues_per_interface).map
        (fun q => catch_value_error (process_external_command sim env
          (tc_del_cmd sim.delay i q)))))) =
      ((sim.interfaces.flatMap (fun i => (queue_range sim.queues_per_interface).map
        (fun q => tc_del_cmd sim.delay i q))).map Eff.showCmd, Res.ok) := by
    induction sim.interfaces with
    | nil => rfl
    | cons i rest ih =>
        have hin : (queue_range sim.queues_per_interface).map
            (fun q => catch_value_error (process_external_command sim env
              (tc_del_cmd sim.delay i q))) =
            (queue_range sim.queues_per_interface).map
              (fun q => process_external_command sim env (tc_del_cmd sim.delay i q)) := by
          apply List.map_congr_left
          intro q _
          rw [pec_show sim env _ hshow, catch_of_ok _ rfl]
        simp only [List.map_cons, seq_all, hin,
          seq_all_show_map sim env hshow (fun q => tc_del_cmd sim.delay i q)
            (queue_range sim.queues_per_interface), ih, and_then]
        simp [List.flatMap_cons, List.map_append]
  simp only [teardown_body, hd, hdel, hifs, htc]
  simp [seq_all, and_then, teardown_cmds, tc_del_cmds, List.map_append]

/-- Show-only setup: the probe runs, then every setup command is echoed in
order, then the state file is written.  Requires the guard to pass (the
probe reports unconfigured, or force is set). -/
theorem show_setup_trace (sim : DelaySim) (env : String → Bool) (bid : Int)
    (hshow : sim.show_only = true)
    (hbid : get_bridge_id sim.state sim.interfaces = Except.ok bid)
    (hguard : env (probe_cmd bid) = false ∨ sim.force = true) :
    initial_setup sim env =
      (Eff.probe (probe_cmd bid) :: ((setup_cmds sim bid).map Eff.showCmd ++
        [Eff.stateWrite sim.state]), Res.ok) := by
  have hg : (env (probe_cmd bid) && !sim.force) = false := by
    rcases hguard with h | h <;> simp [h]
  simp only [initial_setup, hbid, hg, Bool.false_eq_true, if_false,
    setup_body_show sim env bid hshow]
  rfl

/-- Show-only teardown: the probe runs, then every teardown command is
echoed in order, then the reduced state is written.  Requires the guard to
pass (the probe reports configured, or force is set). -/
theorem show_teardown_trace (sim : DelaySim) (env : String → Bool) (bid : Int)
    (hshow : sim.show_only = true)
    (hbid : get_bridge_id sim.state sim.interfaces = Except.ok bid)
    (hguard : env (probe_cmd bid) = true ∨ sim.force = true) :
    teardown_setup sim env =
      (Eff.probe (probe_cmd bid) :: ((teardown_cmds sim bid).map Eff.showCmd ++
        [Eff.stateWrite (delete_entries sim.state sim.interfaces)]), Res.ok) := by
  have hg : (!env (probe_cmd bid) && !sim.force) = false := by
    rcases hguard with h | h <;> simp [h]
  simp only [teardown_setup, hbid, hg, Bool.false_eq_true, if_false,
    teardown_body_show sim env bid hshow]
  rfl

/-- Setup trace outside show-only mode, when the guard passes and every
uncaught command before the delay-queue loop succeeds: the probe, the
irqbalance kill (attempted whether or not it succeeds), interface-up
commands, bridge commands, the governor command, one kernel write per
tweak, the delay-queue attach attempts up to and including the first
failure, and the state write.  Setup completes normally even when an
attach fails, because the surrounding handler catches the error. -/
theorem nonshow_setup_trace (sim : DelaySim) (env : String → Bool) (bid : Int)
    (hshow : sim.show_only = false)
    (hbid : get_bridge_id sim.state sim.interfaces = Except.ok bid)
    (hguard : env (probe_cmd bid) = false ∨ sim.force = true)
    (hup : ∀ i ∈ sim.interfaces, env (if_up_cmd i) = true)
    (haddbr : env (addbr_cmd bid) = true)
    (haddif : ∀ i ∈ sim.interfaces, env (addif_cmd bid i) = true)
    (hbrup : env (br_up_cmd bid) = true)
    (hcpu : env cpufreq_cmd = true) :
    initial_setup sim env =
      ([Eff.probe (probe_cmd bid), Eff.runCmd killall_cmd] ++
        sim.interfaces.map (fun i => Eff.runCmd (if_up_cmd i)) ++
        [Eff.runCmd (addbr_cmd bid)] ++
        sim.interfaces.map (fun i => Eff.runCmd (addif_cmd bid i)) ++
        [Eff.runCmd (br_up_cmd bid), Eff.runCmd cpufreq_cmd] ++
        sim.kernel_tweaks.map (fun kv => echo_write_eff (kernel_tweak_cmd kv.1 kv.2)) ++
        (attempts_until_failure env (tc_add_cmds sim)).map Eff.runCmd ++
        [Eff.stateWrite sim.state], Res.ok) := by
  have hg : (env (probe_cmd bid) && !sim.force) = false := by
    rcases hguard with h | h <;> simp [h]
  have hkill := catch_pec sim env killall_cmd hshow (by decide)
  have hifs := seq_all_runs_map sim env hshow if_up_cmd sim.interfaces
    (fun i _ => by rw [first_token_if_up]; decide) hup
  have hbr := pec_not_echo sim env (addbr_cmd bid) hshow
    (by rw [first_token_addbr]; decide)
  have hads := seq_all_runs_map sim env hshow (addif_cmd bid) sim.interfaces
    (fun i _ => by rw [first_token_addif]; decide) haddif
  have hbru := pec_not_echo sim env (br_up_cmd bid) hshow
    (by rw [first_token_br_up]; decide)
  have hcpuc := pec_not_echo sim env cpufreq_cmd hshow (by decide)
  have htw := seq_all_echo_map sim env hshow
    (fun kv => kernel_tweak_cmd kv.1 kv.2) sim.kernel_tweaks
    (fun kv _ => by exact first_token_tweak kv.1 kv.2)
  have htc := seq_all_nested_attempts sim env hshow
    (fun i q => tc_add_cmd sim.delay i q) sim.interfaces
    (queue_range sim.queues_per_interface)
    (fun i q => by rw [first_token_tc_add]; decide)
  have htcc : catch_value_error (seq_all (sim.interfaces.map (fun i =>
      seq_all ((queue_range sim.queues_per_interface).map
        (fun q => process_external_command sim env (tc_add_cmd sim.delay i q)))))) =
      ((attempts_until_failure env (tc_add_cmds sim)).map Eff.runCmd, Res.ok) := by
    rw [htc]
    by_cases hall : (sim.interfaces.flatMap (fun i =>
        (queue_range sim.queues_per_interface).map
          (fun q => tc_add_cmd sim.delay i q))).all env
    · simp [hall, catch_value_error, tc_add_cmds]
    · simp [hall, catch_value_error, tc_add_cmds]
  simp only [initial_setup, hbid, hg, Bool.false_eq_true, if_false, setup_body,
    hkill, hifs, hbr, haddbr, if_true, hads, hbru, hbrup, hcpuc, hcpu, htw, htcc]
  simp [seq_all, and_then, List.map_map]
  rfl

/-- Teardown trace outside show-only mode, when the guard passes and every
interface-down command succeeds: the probe, the interface-down commands,
then one removal attempt for every interface and queue pair — individually
caught, so all pairs are attempted regardless of failures — followed by
the bridge commands and state write (collected in the tail). -/
theorem nonshow_teardown_prefix (sim : DelaySim) (env : String → Bool) (bid : Int)
    (hshow : sim.show_only = false)
    (hbid : get_bridge_id sim.state sim.interfaces = Except.ok bid)
    (hguard : env (probe_cmd bid) = true ∨ sim.force = true)
    (hdown : ∀ i ∈ sim.interfaces, env (if_down_cmd i) = true) :
    ∃ tail, (teardown_setup sim env).1 =
      Eff.probe (probe_cmd bid) ::
        (sim.interfaces.map (fun i => Eff.runCmd (if_down_cmd i)) ++
          ((tc_del_cmds sim).map Eff.runCmd ++ tail)) := by
  have hg : (!env (probe_cmd bid) && !sim.force) = false := by
    rcases hguard with h | h <;> simp [h]
  have hifs := seq_all_runs_map sim env hshow if_down_cmd sim.interfaces
    (fun i _ => by rw [first_token_if_down]; decide) hdown
  have htc := seq_all_nested_catch sim env hshow
    (fun i q => tc_del_cmd sim.delay i q) sim.interfaces
    (queue_range sim.queues_per_interface)
    (fun i q => by rw [first_token_tc_del]; decide)
  refine ⟨(seq_all [process_external_command sim env (br_down_cmd bid),
    process_external_command sim env (delbr_cmd bid),
    ([Eff.stateWrite (delete_entries sim.state sim.interfaces)], Res.ok)]).1, ?_⟩
  simp only [teardown_setup, hg, hbid, Bool.false_eq_true, if_false, teardown_body,
    seq_all, hifs, htc, and_then_ok]
  simp [tc_del_cmds, List.map_map]

/-- C3 counterexample: at core 64 the code returns "10000000,00000000",
obtained by truncating the 17-digit hexadecimal of 1 <<< 64 to its first 16
digits, which is not the two-group rendering of the mask 1 <<< 64 (that
mask does not fit two 32-bit groups; its faithful rendering would be
"100000000,00000000").  So the claimed equality fails at core 64 even
though 64 is accepted by the guard (only core > 64 errors). -/
theorem C3_counterexample :
    corenum_to_bitmask 64 ≠ Except.ok (bitmask_spec_render 64) ∧
    corenum_to_bitmask 64 = Except.ok "10000000,00000000" := by
  constructor
  · decide
  · decide

/-- C3 amended: for every core from 0 to 63 inclusive, corenum_to_bitmask
returns the two-group, comma-separated, zero-padded lowercase-hexadecimal
rendering of the single-bit mask 1 <<< core (in particular core 0 gives
"00000000,00000001", core 31 gives "00000000,80000000", core 32 gives
"00000001,00000000"); core 64 is still accepted but yields the truncated
string "10000000,00000000", which does not represent 1 <<< 64; and every
core strictly greater than 64 (e.g. 65) fails with the unsupported-core
error. -/
theorem C3_bitmask_rendering :
    (∀ core : Nat, core < 64 → corenum_to_bitmask core = Except.ok (bitmask_spec_render core)) ∧
    corenum_to_bitmask 0 = Except.ok "00000000,00000001" ∧
    corenum_to_bitmask 31 = Except.ok "00000000,80000000" ∧
    corenum_to_bitmask 32 = Except.ok "00000001,00000000" ∧
    corenum_to_bitmask 64 = Except.ok "10000000,00000000" ∧
    (∀ core : Nat, 64 < core → corenum_to_bitmask core = Except.error ()) := by
  refine ⟨by decide, by decide, by decide, by decide, by decide, ?_⟩
  intro core h
  simp only [corenum_to_bitmask, if_pos (by omega : core > 64)]

/-- C3 witness: the amended theorem applied at concrete cores 31 and 65,
discharging the bound hypotheses there. -/
theorem C3_bitmask_rendering_witness :
    corenum_to_bitmask 31 = Except.ok (bitmask_spec_render 31) ∧
    corenum_to_bitmask 65 = Except.error () :=
  ⟨C3_bitmask_rendering.1 31 (by decide), C3_bitmask_rendering.2.2.2.2.2 65 (by decide)⟩

/-- C4: when two member interfaces of the same group are mapped to two
different bridge identifiers in the persisted state, get_bridge_id — called
by every operation that needs the group's bridge identifier, after
read_state has run its assignment pass — prints the consistency error and
exits with code 1 (Except.error 1); it never returns an identifier, so it
never silently picks one of the two. -/
theorem C4_inconsistent_bridge_ids_fatal
    (st : List (String × Int)) (ifaces : List String) (r : Int) (i j : String)
    (a b : Int) (hi : i ∈ ifaces) (hj : j ∈ ifaces)
    (ha : st.lookup i = some a) (hb : st.lookup j = some b) (hab : a ≠ b) :
    get_bridge_id (assign_ids r st ifaces) ifaces = Except.error 1 := by
  have ha' := @lookup_assign_ids_of_some st i a ifaces r ha
  have hb' := @lookup_assign_ids_of_some st j b ifaces r hb
  have hall : ∀ k ∈ ifaces, (((assign_ids r st ifaces).lookup k)).isSome :=
    fun k hk => lookup_assign_ids_isSome ifaces r hk
  rcases lookup_all_isSome ifaces hall with ⟨vs, hvs⟩
  have hma : a ∈ vs := mem_lookup_all ifaces hvs hi ha'
  have hmb : b ∈ vs := mem_lookup_all ifaces hvs hj hb'
  have hlen := one_lt_length_dedup hma hmb hab
  simp only [get_bridge_id, hvs, if_pos hlen]

/-- C4 witness: the theorem applied to the concrete state mapping nic0 to 3
and nic1 to 4 for the group with members nic0 and nic1. -/
theorem C4_inconsistent_bridge_ids_fatal_witness :
    get_bridge_id (assign_ids 7 [("nic0", 3), ("nic1", 4)] ["nic0", "nic1"])
      ["nic0", "nic1"] = Except.error 1 :=
  C4_inconsistent_bridge_ids_fatal [("nic0", 3), ("nic1", 4)] ["nic0", "nic1"] 7
    "nic0" "nic1" 3 4 (by decide) (by decide) (by decide) (by decide) (by decide)

/-- C5: the identifier-assignment pass of read_state is idempotent.  When
every member of the group already has an entry, a second pass (with a fresh
random draw r2) leaves the state mapping unchanged; when additionally all
entries agree on v, querying the bridge id returns v both before and after
such a pass.  When some members are unassigned, the single drawn value r is
assigned to every unassigned member, while every already-assigned member
keeps its value.  The draw random.randint(10,100000) spans at least ten
thousand distinct values, a five-digit range. -/
theorem C5_identifier_assignment_idempotent
    (st : List (String × Int)) (ifaces : List String) (r r2 v w : Int)
    (i j : String) :
    ((∀ k ∈ ifaces, (st.lookup k).isSome) → assign_ids r2 st ifaces = st) ∧
    ((∀ k ∈ ifaces, st.lookup k = some v) → ifaces ≠ [] →
      get_bridge_id st ifaces = Except.ok v ∧
      get_bridge_id (assign_ids r2 st ifaces) ifaces = Except.ok v) ∧
    (i ∈ ifaces → st.lookup i = none → (assign_ids r st ifaces).lookup i = some r) ∧
    (st.lookup j = some w → (assign_ids r st ifaces).lookup j = some w) ∧
    (bridge_id_lo = 10 ∧ bridge_id_hi = 100000 ∧
      10000 ≤ bridge_id_hi - bridge_id_lo + 1) := by
  refine ⟨fun h => assign_ids_of_all_some ifaces r2 h, fun hv hne => ?_,
    fun hi hn => lookup_assign_ids_of_none ifaces r hn hi,
    fun hw => lookup_assign_ids_of_some ifaces r hw, by decide, by decide, by decide⟩
  have hsame : assign_ids r2 st ifaces = st :=
    assign_ids_of_all_some ifaces r2 (fun k hk => by simp [hv k hk])
  refine ⟨get_bridge_id_const ifaces hv hne, ?_⟩
  rw [hsame]
  exact get_bridge_id_const ifaces hv hne

/-- C5 witness: the theorem applied to a concrete fully-assigned group
(both members mapped to 42) and to a concrete partially-assigned group. -/
theorem C5_identifier_assignment_idempotent_witness :
    assign_ids 99 [("nic0", 42), ("nic1", 42)] ["nic0", "nic1"] =
      [("nic0", 42), ("nic1", 42)] ∧
    get_bridge_id [("nic0", 42), ("nic1", 42)] ["nic0", "nic1"] = Except.ok 42 ∧
    (assign_ids 77 [("nic0", 42)] ["nic0", "nic1"]).lookup "nic1" = some 77 ∧
    (assign_ids 77 [("nic0", 42)] ["nic0", "nic1"]).lookup "nic0" = some 42 := by
  have h := C5_identifier_assignment_idempotent [("nic0", 42), ("nic1", 42)]
    ["nic0", "nic1"] 77 99 42 42 "nic1" "nic0"
  have h2 := C5_identifier_assignment_idempotent [("nic0", 42)]
    ["nic0", "nic1"] 77 99 42 42 "nic1" "nic0"
  refine ⟨h.1 (by decide), (h.2.1 (by decide) (by decide)).1,
    h2.2.2.1 (by decide) (by decide), h2.2.2.2.1 (by decide)⟩

/-- The command previews of an echoed command list followed by the state
write are exactly the commands. -/
theorem shown_cmds_map_append (l : List String) (st : List (String × Int)) :
    shown_cmds (l.map Eff.showCmd ++ [Eff.stateWrite st]) = l := by
  induction l with
  | nil => rfl
  | cons a rest ih =>
      simp only [List.map_cons, List.cons_append, shown_cmds, List.filterMap_cons] at ih ⊢
      simpa using ih

/-- The show-only command previews of a guard-passing show-mode trace are
exactly the body commands. -/
theorem shown_cmds_closed (p : String) (l : List String) (st : List (String × Int)) :
    shown_cmds (Eff.probe p :: (l.map Eff.showCmd ++ [Eff.stateWrite st])) = l := by
  have h := shown_cmds_map_append l st
  simp only [shown_cmds, List.filterMap_cons] at h ⊢
  exact h

/-- C1 counterexample: in show-only mode (sample configuration with no
existing bridge) the setup transition still appends a write of the state
file to its trace, and still executes the external bridge-existence probe;
the teardown transition, forced past its guard, also writes the state
file.  So show-only mode does not perform "no mutation at all". -/
theorem C1_counterexample :
    sample_sim.show_only = true ∧
    Eff.stateWrite sample_sim.state ∈ (initial_setup sample_sim env_none).1 ∧
    Eff.probe (probe_cmd 42) ∈ (initial_setup sample_sim env_none).1 ∧
    Eff.stateWrite (delete_entries sample_sim.state sample_sim.interfaces) ∈
      (teardown_setup { sample_sim with force := true } env_none).1 := by
  decide

/-- C1 amended: in show-only mode no external command is run and no kernel
pseudo-file is written through the command executor — the trace of either
transition holds no executor effect — and the exact would-be commands are
echoed in order by the sequencing logic; however the bridge-existence
probe still executes its external query, and when the guard passes the
persisted state file is still written (setup saves the state, teardown
saves it with the group's entries removed). -/
theorem C1_show_only_effects (sim : DelaySim) (env : String → Bool) (bid : Int)
    (hshow : sim.show_only = true)
    (hbid : get_bridge_id sim.state sim.interfaces = Except.ok bid) :
    (env (probe_cmd bid) = false ∨ sim.force = true →
      initial_setup sim env =
        (Eff.probe (probe_cmd bid) :: ((setup_cmds sim bid).map Eff.showCmd ++
          [Eff.stateWrite sim.state]), Res.ok)) ∧
    (env (probe_cmd bid) = true ∨ sim.force = true →
      teardown_setup sim env =
        (Eff.probe (probe_cmd bid) :: ((teardown_cmds sim bid).map Eff.showCmd ++
          [Eff.stateWrite (delete_entries sim.state sim.interfaces)]), Res.ok)) ∧
    (∀ e ∈ (initial_setup sim env).1, is_executor_effect e = false) ∧
    (∀ e ∈ (teardown_setup sim env).1, is_executor_effect e = false) := by
  refine ⟨fun hg => show_setup_trace sim env bid hshow hbid hg,
    fun hg => show_teardown_trace sim env bid hshow hbid hg, ?_, ?_⟩
  · intro e he
    by_cases hg : (env (probe_cmd bid) && !sim.force) = true
    · simp only [initial_setup, hbid, hg, if_true] at he
      rcases List.mem_singleton.1 he with rfl
      rfl
    · have hg2 : env (probe_cmd bid) = false ∨ sim.force = true := by
        cases hfa : env (probe_cmd bid) <;> cases hfb : sim.force <;> simp_all
      rw [show_setup_trace sim env bid hshow hbid hg2] at he
      simp only [List.mem_cons, List.mem_append, List.mem_map,
        List.mem_singleton] at he
      rcases he with rfl | ⟨c, _, rfl⟩ | rfl | hfalse
      · rfl
      · rfl
      · rfl
      · cases hfalse
  · intro e he
    by_cases hg : (!env (probe_cmd bid) && !sim.force) = true
    · simp only [teardown_setup, hbid, hg, if_true] at he
      rcases List.mem_singleton.1 he with rfl
      rfl
    · have hg2 : env (probe_cmd bid) = true ∨ sim.force = true := by
        cases hfa : env (probe_cmd bid) <;> cases hfb : sim.force <;> simp_all
      rw [show_teardown_trace sim env bid hshow hbid hg2] at he
      simp only [List.mem_cons, List.mem_append, List.mem_map,
        List.mem_singleton] at he
      rcases he with rfl | ⟨c, _, rfl⟩ | rfl | hfalse
      · rfl
      · rfl
      · rfl
      · cases hfalse

/-- C1 witness: the amended theorem applied to the sample configuration,
with the probe failing for setup and succeeding for teardown. -/
theorem C1_show_only_effects_witness :
    initial_setup sample_sim env_none =
      (Eff.probe (probe_cmd 42) :: ((setup_cmds sample_sim 42).map Eff.showCmd ++
        [Eff.stateWrite sample_sim.state]), Res.ok) ∧
    teardown_setup sample_sim env_all =
      (Eff.probe (probe_cmd 42) :: ((teardown_cmds sample_sim 42).map Eff.showCmd ++
        [Eff.stateWrite (delete_entries sample_sim.state sample_sim.interfaces)]),
        Res.ok) :=
  ⟨(C1_show_only_effects sample_sim env_none 42 rfl (by decide)).1 (Or.inl rfl),
   (C1_show_only_effects sample_sim env_all 42 rfl (by decide)).2.1 (Or.inl rfl)⟩

/-- C7: the configured-state guards and the force override.  When the
probe reports the bridge exists and force is off, setup stops after the
probe with no further effect; when the probe reports no bridge or force is
on, setup runs its full body.  Symmetrically, teardown stops after the
probe when the bridge is absent and force is off, and runs its full body
when the bridge exists or force is on — with force, both transitions run
the same body they would run in the normal case. -/
theorem C7_guards_with_force (sim : DelaySim) (env : String → Bool) (bid : Int)
    (hbid : get_bridge_id sim.state sim.interfaces = Except.ok bid) :
    (env (probe_cmd bid) = true → sim.force = false →
      initial_setup sim env = ([Eff.probe (probe_cmd bid)], Res.ok)) ∧
    (env (probe_cmd bid) = false ∨ sim.force = true →
      initial_setup sim env =
        (Eff.probe (probe_cmd bid) :: (setup_body sim env bid).1,
          (setup_body sim env bid).2)) ∧
    (env (probe_cmd bid) = false → sim.force = false →
      teardown_setup sim env = ([Eff.probe (probe_cmd bid)], Res.ok)) ∧
    (env (probe_cmd bid) = true ∨ sim.force = true →
      teardown_setup sim env =
        (Eff.probe (probe_cmd bid) :: (teardown_body sim env bid).1,
          (teardown_body sim env bid).2)) := by
  refine ⟨fun hp hf => ?_, fun hg => ?_, fun hp hf => ?_, fun hg => ?_⟩
  · simp [initial_setup, hbid, hp, hf]
  · have hg2 : (env (probe_cmd bid) && !sim.force) = false := by
      rcases hg with h | h <;> simp [h]
    simp [initial_setup, hbid, hg2]
  · simp [teardown_setup, hbid, hp, hf]
  · have hg2 : (!env (probe_cmd bid) && !sim.force) = false := by
      rcases hg with h | h <;> simp [h]
    simp [teardown_setup, hbid, hg2]

/-- C7 witness: the theorem applied to the sample configuration: with the
probe succeeding and force off, setup is a no-op after the probe; with the
probe failing and force off, teardown is a no-op after the probe. -/
theorem C7_guards_with_force_witness :
    initial_setup sample_sim env_all = ([Eff.probe (probe_cmd 42)], Res.ok) ∧
    teardown_setup sample_sim env_none = ([Eff.probe (probe_cmd 42)], Res.ok) :=
  ⟨(C7_guards_with_force sample_sim env_all 42 (by decide)).1 rfl rfl,
   (C7_guards_with_force sample_sim env_none 42 (by decide)).2.2.1 rfl rfl⟩

/-- Bumping a counter never changes the key list. -/
theorem bump_keys (c : List (String × Nat)) (k : String) :
    (bump_counter c k).map Prod.fst = c.map Prod.fst := by
  induction c with
  | nil => rfl
  | cons a rest ih =>
      rcases a with ⟨k0, n⟩
      by_cases h : k0 = k <;> simp [bump_counter, h, ih]

/-- Bumping increments the bumped key's counter. -/
theorem bump_lookup_self (c : List (String × Nat)) (k : String) :
    (bump_counter c k).lookup k = (c.lookup k).map (fun n => n + 1) := by
  induction c with
  | nil => rfl
  | cons a rest ih =>
      rcases a with ⟨k0, n⟩
      by_cases h : k0 = k
      · subst h
        simp [bump_counter, List.lookup]
      · have hbk : (k == k0) = false := beq_eq_false_iff_ne.2 (fun he => h he.symm)
        simp [bump_counter, h, List.lookup, hbk, ih]

/-- Bumping leaves other keys' counters unchanged. -/
theorem bump_lookup_other (c : List (String × Nat)) (k k2 : String) (h : k2 ≠ k) :
    (bump_counter c k).lookup k2 = c.lookup k2 := by
  induction c with
  | nil => rfl
  | cons a rest ih =>
      rcases a with ⟨k0, n⟩
      by_cases h0 : k0 = k
      · subst h0
        have hbk : (k2 == k0) = false := beq_eq_false_iff_ne.2 h
        simp [bump_counter, List.lookup, hbk]
      · by_cases h2 : k0 = k2
        · subst h2
          simp [bump_counter, h0, List.lookup]
        · have hbk : (k2 == k0) = false := beq_eq_false_iff_ne.2 (fun he => h2 he.symm)
          simp [bump_counter, h0, List.lookup, hbk, ih]

/-- A key of the counter dict has a counter value. -/
theorem lookup_isSome_of_mem_fst (c : List (String × Nat)) (k : String)
    (h : k ∈ c.map Prod.fst) : (c.lookup k).isSome := by
  induction c with
  | nil => cases h
  | cons a rest ih =>
      rcases a with ⟨k0, n⟩
      by_cases h0 : k0 = k
      · subst h0
        simp [List.lookup]
      · have hbk : (k == k0) = false := beq_eq_false_iff_ne.2 (fun he => h0 he.symm)
        have hm : k ∈ rest.map Prod.fst := by
          rcases List.mem_cons.1 h with he | hm
          · exact absurd he.symm h0
          · exact hm
        simp [List.lookup, hbk, ih hm]

/-- The initial counters carry the mapping keys. -/
theorem irq_counters_init_keys (mapping : List (String × Nat)) :
    (irq_counters_init mapping).map Prod.fst = mapping.map Prod.fst := by
  simp [irq_counters_init, List.map_map]

/-- Every initial counter reads as zero. -/
theorem irq_counters_init_lookup (mapping : List (String × Nat)) (k : String) :
    ((irq_counters_init mapping).lookup k).getD 0 = 0 := by
  induction mapping with
  | nil => rfl
  | cons a rest ih =>
      by_cases h : (k == a.1) = true
      · simp [irq_counters_init, List.lookup, h]
      · have hf : (k == a.1) = false := by simpa using h
        simp only [irq_counters_init, List.map_cons, List.lookup, hf]
        simpa [irq_counters_init] using ih

/-- The per-match action of the IRQ loop finishes normally in every mode:
two modes only print, and the configure mode's affinity write is an echo
command, which the executor always reports as successful. -/
theorem irq_step_snd_ok (sim : DelaySim) (env : String → Bool)
    (configure show_existing : Bool) (bm e0 : String) :
    (if show_existing then (([] : List Eff), Res.ok)
     else if configure then
       process_external_command sim env
         (echo_cmd_str bm ("/proc/irq/" ++ e0 ++ "/smp_affinity"))
     else ([], Res.ok)).2 = Res.ok := by
  by_cases hs : show_existing
  · simp [hs]
  · by_cases hc : configure
    · simp only [hs, hc, if_true, if_false, Bool.false_eq_true]
      by_cases hso : sim.show_only = true
      · rw [pec_show sim env _ hso]
      · rw [pec_echo sim env _ (by simpa using hso) (first_token_echo_cmd bm _)]
    · simp [hs, hc]

/-- The matches and the outcome of the IRQ loop are the same in every
mode: the modes differ only in the effects emitted per match, and the
counter is incremented after each match in all of them. -/
theorem irq_modes_eq (sim : DelaySim) (env : String → Bool) (c1 s1 c2 s2 : Bool) :
    ∀ (lines : List String) (counters : List (String × Nat)),
      (process_irq_lines sim env c1 s1 lines counters).2 =
      (process_irq_lines sim env c2 s2 lines counters).2 := by
  intro lines
  induction lines with
  | nil => intro counters; rfl
  | cons line rest ih =>
      intro counters
      simp only [process_irq_lines]
      cases hfk : first_key (counters.map Prod.fst) line with
      | none =>
          simp only [hfk]
          exact ih counters
      | some k =>
          simp only [hfk]
          by_cases hlen : (irq_elements line).length < 2
          · simp only [if_pos hlen]
          · simp only [if_neg hlen]
            cases hbm : corenum_to_bitmask
                ((sim.interface_core_mapping.lookup k).getD 0 +
                  (counters.lookup k).getD 0) with
            | error e => rfl
            | ok bm =>
                have h1 := irq_step_snd_ok sim env c1 s1 bm (irq_id_of line)
                have h2 := irq_step_snd_ok sim env c2 s2 bm (irq_id_of line)
                simp only [h1, h2, ih (bump_counter counters k)]

/-- When the IRQ loop finishes normally, its matches pair each matched
line (in table order) with the first mapping key occurring in it and that
line's IRQ identifier token: lines are scanned in order and only the first
matching key of a line is used. -/
theorem irq_matches_proj (sim : DelaySim) (env : String → Bool) (c s : Bool) :
    ∀ (lines : List String) (counters : List (String × Nat)),
      (process_irq_lines sim env c s lines counters).2.2 = Res.ok →
      (process_irq_lines sim env c s lines counters).2.1.map
          (fun m => (m.iface, m.irq_id)) =
        lines.filterMap (fun line =>
          (first_key (counters.map Prod.fst) line).map
            (fun k2 => (k2, irq_id_of line))) := by
  intro lines
  induction lines with
  | nil => intro counters _; rfl
  | cons line rest ih =>
      intro counters hok
      simp only [process_irq_lines] at hok ⊢
      cases hfk : first_key (counters.map Prod.fst) line with
      | none =>
          simp only [hfk] at hok ⊢
          simp only [List.filterMap_cons, hfk]
          exact ih counters hok
      | some k =>
          simp only [hfk] at hok ⊢
          by_cases hlen : (irq_elements line).length < 2
          · rw [if_pos hlen] at hok
            exact Res.noConfusion hok
          · rw [if_neg hlen] at hok ⊢
            cases hbm : corenum_to_bitmask
                ((sim.interface_core_mapping.lookup k).getD 0 +
                  (counters.lookup k).getD 0) with
            | error e =>
                rw [hbm] at hok
                exact Res.noConfusion hok
            | ok bm =>
                rw [hbm] at hok
                have hstep := irq_step_snd_ok sim env c s bm (irq_id_of line)
                simp only [hstep] at hok ⊢
                have hrest := ih (bump_counter counters k) hok
                rw [bump_keys] at hrest
                simp only [List.filterMap_cons, hfk, List.map_cons, hrest]
                rfl

/-- Every match of the IRQ loop assigns core = configured base core of the
matched key + the 0-indexed occurrence recorded for the match. -/
theorem irq_core_eq (sim : DelaySim) (env : String → Bool) (c s : Bool) :
    ∀ (lines : List String) (counters : List (String × Nat)),
      ∀ m ∈ (process_irq_lines sim env c s lines counters).2.1,
        m.core = (sim.interface_core_mapping.lookup m.iface).getD 0 + m.occurrence := by
  intro lines
  induction lines with
  | nil =>
      intro counters m hm
      cases hm
  | cons line rest ih =>
      intro counters m hm
      simp only [process_irq_lines] at hm
      cases hfk : first_key (counters.map Prod.fst) line with
      | none =>
          simp only [hfk] at hm
          exact ih counters m hm
      | some k =>
          simp only [hfk] at hm
          by_cases hlen : (irq_elements line).length < 2
          · rw [if_pos hlen] at hm
            exact absurd hm (List.not_mem_nil m)
          · rw [if_neg hlen] at hm
            cases hbm : corenum_to_bitmask
                ((sim.interface_core_mapping.lookup k).getD 0 +
                  (counters.lookup k).getD 0) with
            | error e =>
                rw [hbm] at hm
                exact absurd hm (List.not_mem_nil m)
            | ok bm =>
                rw [hbm] at hm
                have hstep := irq_step_snd_ok sim env c s bm (irq_id_of line)
                simp only [hstep] at hm
                rcases List.mem_cons.1 hm with rfl | hm2
                · rfl
                · exact ih (bump_counter counters k) m hm2

/-- The occurrence indices recorded for any fixed interface key are
consecutive, starting from that key's current counter: with the initial
zero counters, the n-th match of an interface records occurrence n. -/
theorem irq_occurrences (sim : DelaySim) (env : String → Bool) (c s : Bool) :
    ∀ (lines : List String) (counters : List (String × Nat)) (k : String),
      ((process_irq_lines sim env c s lines counters).2.1.filter
          (fun m => m.iface == k)).map IrqMatch.occurrence =
        List.range' ((counters.lookup k).getD 0)
          (((process_irq_lines sim env c s lines counters).2.1.filter
            (fun m => m.iface == k)).length) := by
  intro lines
  induction lines with
  | nil => intro counters k; rfl
  | cons line rest ih =>
      intro counters k
      simp only [process_irq_lines]
      cases hfk : first_key (counters.map Prod.fst) line with
      | none =>
          simp only [hfk]
          exact ih counters k
      | some k0 =>
          simp only [hfk]
          by_cases hlen : (irq_elements line).length < 2
          · simp [if_pos hlen]
          · rw [if_neg hlen]
            cases hbm : corenum_to_bitmask
                ((sim.interface_core_mapping.lookup k0).getD 0 +
                  (counters.lookup k0).getD 0) with
            | error e => simp
            | ok bm =>
                have hstep := irq_step_snd_ok sim env c s bm (irq_id_of line)
                simp only [hstep]
                have hk0 : k0 ∈ counters.map Prod.fst :=
                  List.mem_of_find?_eq_some hfk
                have hk0some := lookup_isSome_of_mem_fst counters k0 hk0
                by_cases hkk : k0 = k
                · subst hkk
                  rcases Option.isSome_iff_exists.1 hk0some with ⟨n, hn⟩
                  have hbump : ((bump_counter counters k0).lookup k0).getD 0 =
                      (counters.lookup k0).getD 0 + 1 := by
                    rw [bump_lookup_self, hn]
                    rfl
                  have hrest := ih (bump_counter counters k0) k0
                  rw [hbump] at hrest
                  simp only [List.filter_cons, List.map_cons, List.length_cons]
                  have hbeq : (k0 == k0) = true := beq_self_eq_true k0
                  simp only [hbeq, if_true, List.map_cons, List.length_cons,
                    List.range'_succ, hrest]
                · have hbeq : (k0 == k) = false := beq_eq_false_iff_ne.2 hkk
                  have hrest := ih (bump_counter counters k0) k
                  rw [bump_lookup_other counters k0 k (fun he => hkk he.symm)] at hrest
                  simp only [List.filter_cons, hbeq, Bool.false_eq_true, if_false]
                  exact hrest

/-- C2 counterexample: in the setup transition (sample configuration,
environment failing only the first delay-queue attach), the first attach
command is attempted but none of the remaining three (interface, queue)
pairs is ever attempted — the single try/except around the whole nested
loop aborts it — even though setup still completes normally.  This refutes
the claim that the setup attach loop continues with the next queue after a
failure and attempts every pair. -/
theorem C2_counterexample :
    Eff.runCmd (tc_add_cmd "10ms" "nic0" 1) ∈ (initial_setup sample_ns env_fail_tc1).1 ∧
    Eff.runCmd (tc_add_cmd "10ms" "nic0" 2) ∉ (initial_setup sample_ns env_fail_tc1).1 ∧
    Eff.runCmd (tc_add_cmd "10ms" "nic1" 1) ∉ (initial_setup sample_ns env_fail_tc1).1 ∧
    Eff.runCmd (tc_add_cmd "10ms" "nic1" 2) ∉ (initial_setup sample_ns env_fail_tc1).1 ∧
    (initial_setup sample_ns env_fail_tc1).2 = Res.ok := by
  decide

/-- C2 amended: the teardown delay-queue removal loop catches each failure
individually, so for every member interface and every queue index 1
through the queue count an attempt appears in the trace regardless of the
environment; the setup attach loop, whose try/except wraps the whole
nested loop, attempts the (interface, queue) pairs only up to and
including the first failing one — the caught error then ends the loop,
and setup proceeds to save state and complete normally. -/
theorem C2_queue_loop_error_handling (sim : DelaySim) (env : String → Bool) (bid : Int)
    (hshow : sim.show_only = false)
    (hbid : get_bridge_id sim.state sim.interfaces = Except.ok bid) :
    ((env (probe_cmd bid) = true ∨ sim.force = true) →
      (∀ i ∈ sim.interfaces, env (if_down_cmd i) = true) →
      ∀ i ∈ sim.interfaces, ∀ q ∈ queue_range sim.queues_per_interface,
        Eff.runCmd (tc_del_cmd sim.delay i q) ∈ (teardown_setup sim env).1) ∧
    ((env (probe_cmd bid) = false ∨ sim.force = true) →
      (∀ i ∈ sim.interfaces, env (if_up_cmd i) = true) →
      env (addbr_cmd bid) = true →
      (∀ i ∈ sim.interfaces, env (addif_cmd bid i) = true) →
      env (br_up_cmd bid) = true → env cpufreq_cmd = true →
      initial_setup sim env =
        ([Eff.probe (probe_cmd bid), Eff.runCmd killall_cmd] ++
          sim.interfaces.map (fun i => Eff.runCmd (if_up_cmd i)) ++
          [Eff.runCmd (addbr_cmd bid)] ++
          sim.interfaces.map (fun i => Eff.runCmd (addif_cmd bid i)) ++
          [Eff.runCmd (br_up_cmd bid), Eff.runCmd cpufreq_cmd] ++
          sim.kernel_tweaks.map (fun kv => echo_write_eff (kernel_tweak_cmd kv.1 kv.2)) ++
          (attempts_until_failure env (tc_add_cmds sim)).map Eff.runCmd ++
          [Eff.stateWrite sim.state], Res.ok)) := by
  constructor
  · intro hguard hdown i hi q hq
    rcases nonshow_teardown_prefix sim env bid hshow hbid hguard hdown with ⟨tail, htr⟩
    rw [htr]
    have hmem : tc_del_cmd sim.delay i q ∈ tc_del_cmds sim := by
      simp only [tc_del_cmds, List.mem_flatMap]
      exact ⟨i, hi, List.mem_map.2 ⟨q, hq, rfl⟩⟩
    simp only [List.mem_cons, List.mem_append, List.mem_map]
    exact Or.inr (Or.inr (Or.inl ⟨tc_del_cmd sim.delay i q, hmem, rfl⟩))
  · intro hguard hup haddbr haddif hbrup hcpu
    exact nonshow_setup_trace sim env bid hshow hbid hguard hup haddbr haddif hbrup hcpu

/-- C2 witness: the amended theorem applied to the sample non-show
configuration: with every command succeeding, the teardown attempt for the
last pair (nic1, queue 2) is in the trace; with the first attach failing,
the setup trace is the closed form whose attach section stops after the
first pair. -/
theorem C2_queue_loop_error_handling_witness :
    Eff.runCmd (tc_del_cmd "10ms" "nic1" 2) ∈ (teardown_setup sample_ns env_all).1 ∧
    initial_setup sample_ns env_fail_tc1 =
      ([Eff.probe (probe_cmd 42), Eff.runCmd killall_cmd] ++
        sample_ns.interfaces.map (fun i => Eff.runCmd (if_up_cmd i)) ++
        [Eff.runCmd (addbr_cmd 42)] ++
        sample_ns.interfaces.map (fun i => Eff.runCmd (addif_cmd 42 i)) ++
        [Eff.runCmd (br_up_cmd 42), Eff.runCmd cpufreq_cmd] ++
        sample_ns.kernel_tweaks.map (fun kv => echo_write_eff (kernel_tweak_cmd kv.1 kv.2)) ++
        (attempts_until_failure env_fail_tc1 (tc_add_cmds sample_ns)).map Eff.runCmd ++
        [Eff.stateWrite sample_ns.state], Res.ok) :=
  ⟨(C2_queue_loop_error_handling sample_ns env_all 42 rfl (by decide)).1
      (Or.inl rfl) (fun i _ => rfl) "nic1" (by decide) 2 (by decide),
   (C2_queue_loop_error_handling sample_ns env_fail_tc1 42 rfl (by decide)).2
      (Or.inl (by decide)) (fun i hi => by fin_cases hi <;> decide)
      (by decide) (fun i hi => by fin_cases hi <;> decide) (by decide) (by decide)⟩

/-- C8 counterexample: for the sample scenario (members nic0 and nic1,
queue count 2, no existing state) the show-only setup emission does not
equal the claimed sequence: the irqbalance-kill command is echoed before
the first interface-up command, so a command outside the claimed list
appears before it. -/
theorem C8_counterexample :
    shown_cmds (initial_setup sample_sim env_none).1 ≠ c8_claimed_cmds sample_sim 42 ∧
    shown_cmds (initial_setup sample_sim env_none).1 =
      killall_cmd :: c8_claimed_cmds sample_sim 42 := by
  decide

/-- C8 amended: for the scenario with members nic0 and nic1, queue count
2, and no existing state (state assigned from the draw r), show-only setup
emits exactly, in order: the irqbalance-kill command, the interface-up
commands for nic0 and nic1, one bridge-create command, two bridge-attach
commands, one bridge-up command, the governor-tuning command, one command
per configured kernel tweak, and four delay-attach commands (2 interfaces
times 2 queues), with no other external commands in between — the claimed
sequence is correct except that the irqbalance kill precedes it. -/
theorem C8_show_setup_command_order (kt : List (String × String)) (d : String)
    (r : Int) (env : String → Bool) (hprobe : env (probe_cmd r) = false) :
    shown_cmds (initial_setup (c8_sim kt d r) env).1 =
      killall_cmd :: (if_up_cmd "nic0" :: if_up_cmd "nic1" :: addbr_cmd r ::
        addif_cmd r "nic0" :: addif_cmd r "nic1" :: br_up_cmd r :: cpufreq_cmd ::
        (kt.map (fun kv => kernel_tweak_cmd kv.1 kv.2) ++
          [tc_add_cmd d "nic0" 1, tc_add_cmd d "nic0" 2,
            tc_add_cmd d "nic1" 1, tc_add_cmd d "nic1" 2])) := by
  have hassign : assign_ids r [] ["nic0", "nic1"] = [("nic0", r), ("nic1", r)] := rfl
  have hbid : get_bridge_id (c8_sim kt d r).state (c8_sim kt d r).interfaces =
      Except.ok r := by
    apply get_bridge_id_const
    · intro i hi
      rcases List.mem_cons.1 hi with rfl | hi2
      · rfl
      · rcases List.mem_singleton.1 hi2 with rfl
        rfl
    · intro h
      cases h
  rw [show_setup_trace (c8_sim kt d r) env r rfl hbid (Or.inl hprobe),
    shown_cmds_closed]
  rfl

/-- C8 witness: the amended theorem applied at the sample tweak set, delay
10ms, draw 42, and the all-failing environment. -/
theorem C8_show_setup_command_order_witness :
    shown_cmds (initial_setup (c8_sim [("net.core.rmem_max", "16777216")] "10ms" 42)
        env_none).1 =
      killall_cmd :: (if_up_cmd "nic0" :: if_up_cmd "nic1" :: addbr_cmd 42 ::
        addif_cmd 42 "nic0" :: addif_cmd 42 "nic1" :: br_up_cmd 42 :: cpufreq_cmd ::
        ([("net.core.rmem_max", "16777216")].map (fun kv => kernel_tweak_cmd kv.1 kv.2) ++
          [tc_add_cmd "10ms" "nic0" 1, tc_add_cmd "10ms" "nic0" 2,
            tc_add_cmd "10ms" "nic1" 1, tc_add_cmd "10ms" "nic1" 2])) :=
  C8_show_setup_command_order [("net.core.rmem_max", "16777216")] "10ms" 42 env_none rfl

/-- Hex digits decode to their values. -/
theorem hex_val_digitChar (d : Nat) (h : d < 16) :
    hex_val (Nat.digitChar d) = some d := by
  revert h
  revert d
  decide

/-- A character's code point avoids the surrogate range. -/
theorem char_toNat_valid (c : Char) :
    c.toNat < 55296 ∨ (57344 ≤ c.toNat ∧ c.toNat < 1114112) := c.valid

/-- Four hex digits of a value below 2^16 parse back to the value. -/
theorem parse_hex4_hex4 (n : Nat) (h : n < 65536) (rest : List Char) :
    parse_hex4 (hex4 n ++ rest) = some (n, rest) := by
  have ha := hex_val_digitChar (n / 4096 % 16) (Nat.mod_lt _ (by omega))
  have hb := hex_val_digitChar (n / 256 % 16) (Nat.mod_lt _ (by omega))
  have hc := hex_val_digitChar (n / 16 % 16) (Nat.mod_lt _ (by omega))
  have hd := hex_val_digitChar (n % 16) (Nat.mod_lt _ (by omega))
  have hval : n / 4096 % 16 * 4096 + n / 256 % 16 * 256 + n / 16 % 16 * 16 + n % 16 = n := by
    omega
  simp [hex4, parse_hex4, ha, hb, hc, hd, hval]

/-- Decoding the escape of a character prepends the character. -/
theorem parse_body_esc (c : Char) (rest : List Char) (fuel : Nat) :
    parse_string_body (fuel + 1) (esc_char c ++ rest) =
      (parse_string_body fuel rest).map (fun p => (c :: p.1, p.2)) := by
  by_cases h1 : c = Char.ofNat 34
  · subst h1; rfl
  · by_cases h2 : c = Char.ofNat 92
    · subst h2; rfl
    · by_cases h3 : c = Char.ofNat 8
      · subst h3; rfl
      · by_cases h4 : c = Char.ofNat 12
        · subst h4; rfl
        · by_cases h5 : c = Char.ofNat 10
          · subst h5; rfl
          · by_cases h6 : c = Char.ofNat 13
            · subst h6; rfl
            · by_cases h7 : c = Char.ofNat 9
              · subst h7; rfl
              · by_cases h8 : c.toNat < 32 ∨ 126 < c.toNat
                · by_cases h9 : c.toNat < 65536
                  · -- unicode escape of a character in the basic plane
                    have hesc : esc_char c =
                        Char.ofNat 92 :: Char.ofNat 117 :: hex4 c.toNat := by
                      simp only [esc_char, if_neg h1, if_neg h2, if_neg h3, if_neg h4,
                        if_neg h5, if_neg h6, if_neg h7, if_pos h8, if_pos h9]
                    have hhi : ¬(55296 ≤ c.toNat ∧ c.toNat ≤ 56319) := by
                      rcases char_toNat_valid c with h | h <;> omega
                    have hlo : ¬(56320 ≤ c.toNat ∧ c.toNat ≤ 57343) := by
                      rcases char_toNat_valid c with h | h <;> omega
                    have hph := parse_hex4_hex4 c.toNat h9 rest
                    rw [hesc]
                    simp +decide [parse_string_body, hph, hhi, hlo, Char.ofNat_toNat]
                  · -- surrogate-pair escape of an astral character
                    have hup : c.toNat < 1114112 := by
                      rcases char_toNat_valid c with h | h <;> omega
                    have hesc : esc_char c =
                        (Char.ofNat 92 :: Char.ofNat 117 ::
                          hex4 (55296 + (c.toNat - 65536) / 1024)) ++
                        (Char.ofNat 92 :: Char.ofNat 117 ::
                          hex4 (56320 + (c.toNat - 65536) % 1024)) := by
                      simp only [esc_char, if_neg h1, if_neg h2, if_neg h3, if_neg h4,
                        if_neg h5, if_neg h6, if_neg h7, if_pos h8, if_neg h9]
                    have hdiv : (c.toNat - 65536) / 1024 ≤ 1023 := by omega
                    have hmod : (c.toNat - 65536) % 1024 ≤ 1023 :=
                      Nat.le_of_lt_succ (Nat.mod_lt _ (by omega))
                    have hph1 := parse_hex4_hex4 (55296 + (c.toNat - 65536) / 1024)
                      (by omega)
                      (Char.ofNat 92 :: Char.ofNat 117 ::
                        (hex4 (56320 + (c.toNat - 65536) % 1024) ++ rest))
                    have hph2 := parse_hex4_hex4 (56320 + (c.toNat - 65536) % 1024)
                      (by omega) rest
                    have hcond1 : 55296 ≤ 55296 + (c.toNat - 65536) / 1024 ∧
                        55296 + (c.toNat - 65536) / 1024 ≤ 56319 := by omega
                    have hcond2 : 56320 ≤ 56320 + (c.toNat - 65536) % 1024 ∧
                        56320 + (c.toNat - 65536) % 1024 ≤ 57343 := by omega
                    have hcomb : 65536 + (c.toNat - 65536) / 1024 * 1024 +
                        (c.toNat - 65536) % 1024 = c.toNat := by omega
                    rw [hesc]
                    simp only [List.cons_append, List.append_assoc]
                    rw [parse_string_body]
                    rw [if_neg (by decide : ¬ ((Char.ofNat 92 : Char) = Char.ofNat 34))]
                    rw [if_pos (rfl : (Char.ofNat 92 : Char) = Char.ofNat 92)]
                    rw [if_pos (rfl : (Char.ofNat 117 : Char) = Char.ofNat 117)]
                    rw [hph1]
                    simp only [hcond1, and_self, if_true]
                    rw [hph2]
                    simp only [hcond2, and_self, if_true]
                    simp only [Nat.add_sub_cancel_left, hcomb, Char.ofNat_toNat]
                · -- printable ASCII character, kept literal
                  have hesc : esc_char c = [c] := by
                    simp only [esc_char, if_neg h1, if_neg h2, if_neg h3, if_neg h4,
                      if_neg h5, if_neg h6, if_neg h7, if_neg h8]
                  rw [hesc]
                  simp [parse_string_body, h1, h2]

/-- Decoding an escaped character sequence followed by the closing quote
returns the original characters. -/
theorem parse_body_escaped (s : List Char) (rest : List Char) :
    ∀ fuel, s.length < fuel →
      parse_string_body fuel (s.flatMap esc_char ++ (Char.ofNat 34 :: rest)) =
        some (s, rest) := by
  induction s with
  | nil =>
      intro fuel hf
      match fuel, hf with
      | f + 1, _ => rfl
  | cons c cs ih =>
      intro fuel hf
      match fuel, hf with
      | f + 1, hf =>
          rw [List.flatMap_cons, List.append_assoc, parse_body_esc,
            ih f (by simpa using Nat.lt_of_succ_lt_succ hf)]
          rfl

/-- Decimal digit characters carry their values in code points 48-57. -/
theorem digitChar_toNat (d : Nat) (h : d < 10) :
    48 ≤ (Nat.digitChar d).toNat ∧ (Nat.digitChar d).toNat ≤ 57 ∧
      (Nat.digitChar d).toNat - 48 = d := by
  revert h
  revert d
  decide

/-- Every character of a decimal rendering is a digit. -/
theorem nat_digits_are_digits (n : Nat) :
    ∀ c ∈ nat_digits n, 48 ≤ c.toNat ∧ c.toNat ≤ 57 := by
  induction n using Nat.strong_induction_on with
  | _ n ih =>
      intro c hc
      by_cases h : n < 10
      · rw [nat_digits, dif_pos h] at hc
        rcases List.mem_singleton.1 hc with rfl
        exact ⟨(digitChar_toNat n h).1, (digitChar_toNat n h).2.1⟩
      · rw [nat_digits, dif_neg h] at hc
        rcases List.mem_append.1 hc with h1 | h2
        · exact ih (n / 10) (Nat.div_lt_self (by omega) (by omega)) c h1
        · rcases List.mem_singleton.1 h2 with rfl
          have hd := digitChar_toNat (n % 10) (Nat.mod_lt _ (by omega))
          exact ⟨hd.1, hd.2.1⟩

/-- A decimal rendering is never empty. -/
theorem nat_digits_ne_nil (n : Nat) : nat_digits n ≠ [] := by
  rw [nat_digits]
  by_cases h : n < 10 <;> simp [h]

/-- Consuming a decimal rendering accumulates its value. -/
theorem parse_nat_loop_digits (n : Nat) :
    ∀ (acc : Nat) (rest : List Char),
      parse_nat_loop acc (nat_digits n ++ rest) =
        parse_nat_loop (acc * 10 ^ (nat_digits n).length + n) rest := by
  induction n using Nat.strong_induction_on with
  | _ n ih =>
      intro acc rest
      by_cases h : n < 10
      · rw [nat_digits, dif_pos h]
        have hd := digitChar_toNat n h
        have hcond : 48 ≤ (Nat.digitChar n).toNat ∧ (Nat.digitChar n).toNat ≤ 57 :=
          ⟨hd.1, hd.2.1⟩
        rw [List.singleton_append]
        simp only [parse_nat_loop]
        rw [if_pos hcond, hd.2.2]
        simp
      · rw [nat_digits, dif_neg h]
        have hd := digitChar_toNat (n % 10) (Nat.mod_lt _ (by omega))
        have hcond : 48 ≤ (Nat.digitChar (n % 10)).toNat ∧
            (Nat.digitChar (n % 10)).toNat ≤ 57 := ⟨hd.1, hd.2.1⟩
        rw [List.append_assoc, ih (n / 10) (Nat.div_lt_self (by omega) (by omega)),
          List.singleton_append]
        simp only [parse_nat_loop]
        rw [if_pos hcond, hd.2.2]
        have hx : (acc * 10 ^ (nat_digits (n / 10)).length + n / 10) * 10 + n % 10 =
            acc * (10 ^ (nat_digits (n / 10)).length * 10) + (n / 10 * 10 + n % 10) := by
          ring
        have hy : n / 10 * 10 + n % 10 = n := by omega
        rw [hx, hy, List.length_append, List.length_singleton, ← pow_succ]

/-- The digit loop stops at a non-digit. -/
theorem parse_nat_loop_stop (acc : Nat) (rest : List Char)
    (h : ∀ d, rest.head? = some d → ¬(48 ≤ d.toNat ∧ d.toNat ≤ 57)) :
    parse_nat_loop acc rest = (acc, rest) := by
  cases rest with
  | nil => rfl
  | cons c t =>
      have hc := h c rfl
      simp [parse_nat_loop, hc]

/-- Parsing the decimal rendering of an integer, followed by a non-digit,
returns the integer. -/
theorem parse_int_digits (i : Int) (rest : List Char)
    (h : ∀ d, rest.head? = some d → ¬(48 ≤ d.toNat ∧ d.toNat ≤ 57)) :
    parse_int (int_digits i ++ rest) = some (i, rest) := by
  have hloop : ∀ (m : Nat), parse_nat_loop 0 (nat_digits m ++ rest) = (m, rest) := by
    intro m
    rw [parse_nat_loop_digits, Nat.zero_mul, Nat.zero_add, parse_nat_loop_stop _ _ h]
  by_cases hneg : i < 0
  · rcases hnd : nat_digits (-i).toNat with _ | ⟨c, t⟩
    · exact absurd hnd (nat_digits_ne_nil _)
    · have hcdig : 48 ≤ c.toNat ∧ c.toNat ≤ 57 := by
        apply nat_digits_are_digits (-i).toNat
        rw [hnd]
        exact List.mem_cons_self _ _
      have hshape : int_digits i ++ rest = Char.ofNat 45 :: (c :: (t ++ rest)) := by
        rw [int_digits, if_pos hneg, List.cons_append, hnd, List.cons_append]
      rw [hshape]
      simp only [parse_int, if_true]
      rw [if_pos hcdig]
      rw [show (c :: (t ++ rest) : List Char) = nat_digits (-i).toNat ++ rest from by
        rw [hnd, List.cons_append]]
      rw [hloop]
      have hi : (((-i).toNat : Nat) : Int) = -i := Int.toNat_of_nonneg (by omega)
      simp [hi]
  · rcases hnd : nat_digits i.toNat with _ | ⟨c, t⟩
    · exact absurd hnd (nat_digits_ne_nil _)
    · have hcdig : 48 ≤ c.toNat ∧ c.toNat ≤ 57 := by
        apply nat_digits_are_digits i.toNat
        rw [hnd]
        exact List.mem_cons_self _ _
      have hcm : ¬(c = Char.ofNat 45) := by
        intro he
        rw [he] at hcdig
        exact absurd hcdig (by decide)
      have hshape : int_digits i ++ rest = c :: (t ++ rest) := by
        rw [int_digits, if_neg hneg, hnd, List.cons_append]
      rw [hshape]
      simp only [parse_int]
      rw [if_neg hcm, if_pos hcdig]
      rw [show (c :: (t ++ rest) : List Char) = nat_digits i.toNat ++ rest from by
        rw [hnd, List.cons_append]]
      rw [hloop]
      rw [Int.toNat_of_nonneg (by omega)]

/-- Whitespace skipping leaves a list alone when its head has a code
point of at least 34 (every delimiter and digit the dump emits). -/
theorem skip_ws_cons_ge (c : Char) (l : List Char) (h : 34 ≤ c.toNat) :
    skip_ws (c :: l) = c :: l := by
  have h32 : ¬(c = Char.ofNat 32) := by
    intro he
    rw [he] at h
    exact absurd h (by decide)
  have h9 : ¬(c = Char.ofNat 9) := by
    intro he
    rw [he] at h
    exact absurd h (by decide)
  have h10 : ¬(c = Char.ofNat 10) := by
    intro he
    rw [he] at h
    exact absurd h (by decide)
  have h13 : ¬(c = Char.ofNat 13) := by
    intro he
    rw [he] at h
    exact absurd h (by decide)
  simp [skip_ws, List.dropWhile_cons, h32, h9, h10, h13]

/-- Whitespace skipping consumes a leading space. -/
theorem skip_ws_space (l : List Char) : skip_ws (Char.ofNat 32 :: l) = skip_ws l := by
  simp [skip_ws, List.dropWhile_cons]

/-- Escapes are never empty. -/
theorem esc_char_ne_nil (c : Char) : esc_char c ≠ [] := by
  unfold esc_char
  split_ifs <;> simp [hex4]

/-- Escaping cannot shorten a character list. -/
theorem length_le_flatMap_esc (s : List Char) :
    s.length ≤ (s.flatMap esc_char).length := by
  induction s with
  | nil => simp
  | cons c cs ih =>
      rw [List.flatMap_cons, List.length_append, List.length_cons]
      have h1 : 1 ≤ (esc_char c).length := by
        rcases he : esc_char c with _ | ⟨x, t⟩
        · exact absurd he (esc_char_ne_nil c)
        · simp
      omega

/-- A dumped pair list has at least one character per pair. -/
theorem length_le_dumps_pairs (ps : List (String × Int)) :
    ps.length ≤ (dumps_pairs ps).length := by
  induction ps with
  | nil => simp [dumps_pairs]
  | cons p rest ih =>
      rcases rest with _ | ⟨q, t⟩
      · simp [dumps_pairs, dumps_string]
      · rw [dumps_pairs]
        simp only [List.length_append, List.length_cons] at ih ⊢
        have h1 : 1 ≤ (dumps_string p.1).length := by simp [dumps_string]
        omega

/-- The head of a dumped integer has a code point of at least 34. -/
theorem int_digits_head_ge (i : Int) (c : Char) (t : List Char)
    (h : int_digits i = c :: t) : 34 ≤ c.toNat := by
  by_cases hneg : i < 0
  · rw [int_digits, if_pos hneg] at h
    injection h with h1 _
    rw [← h1]
    decide
  · rw [int_digits, if_neg hneg] at h
    have : c ∈ nat_digits i.toNat := by
      rw [h]
      exact List.mem_cons_self _ _
    have hd := nat_digits_are_digits i.toNat c this
    omega

/-- Parsing a dumped nonempty pair list consumes it and the closing
brace. -/
theorem parse_pairs_dumps (ps : List (String × Int)) :
    ∀ (fuel : Nat), ps.length ≤ fuel → ps ≠ [] →
      parse_pairs fuel (dumps_pairs ps ++ [Char.ofNat 125]) = some (ps, []) := by
  induction ps with
  | nil =>
      intro fuel _ hne
      exact absurd rfl hne
  | cons p rest ih =>
      intro fuel hfuel _
      match fuel, hfuel with
      | f + 1, hfuel =>
          have hkey : ∀ (tl : List Char),
              dumps_string p.1 ++ tl = Char.ofNat 34 ::
                (p.1.data.flatMap esc_char ++ (Char.ofNat 34 :: tl)) := by
            intro tl
            simp [dumps_string]
          have hbody : ∀ (tl : List Char),
              parse_string_body ((p.1.data.flatMap esc_char ++ (Char.ofNat 34 :: tl)).length + 1)
                  (p.1.data.flatMap esc_char ++ (Char.ofNat 34 :: tl)) =
                some (p.1.data, tl) := by
            intro tl
            apply parse_body_escaped
            have := length_le_flatMap_esc p.1.data
            simp only [List.length_append, List.length_cons]
            omega
          rcases rest with _ | ⟨q, t⟩
          · -- a single pair followed by the closing brace
            rw [dumps_pairs, List.append_assoc, hkey]
            simp only [parse_pairs, if_true]
            rw [hbody]
            dsimp only
            simp only [List.cons_append]
            rw [skip_ws_cons_ge _ _ (by decide)]
            dsimp only
            rw [if_pos rfl, skip_ws_space]
            have hint : skip_ws (int_digits p.2 ++ [Char.ofNat 125]) =
                int_digits p.2 ++ [Char.ofNat 125] := by
              rcases hid : int_digits p.2 with _ | ⟨c0, t0⟩
              · exact absurd hid (by
                  rw [int_digits]
                  by_cases hn : p.2 < 0 <;> simp [hn, nat_digits_ne_nil])
              · rw [List.cons_append]
                exact skip_ws_cons_ge _ _ (int_digits_head_ge p.2 c0 t0 hid)
            rw [hint]
            rw [parse_int_digits p.2 [Char.ofNat 125] (by
              intro d hd
              injection hd with hd
              rw [← hd]
              decide)]
            dsimp only
            rw [skip_ws_cons_ge _ _ (by decide)]
            dsimp only
            rw [if_neg (by decide), if_pos rfl]
          · -- a pair, a comma, and further pairs
            rw [dumps_pairs]
            rw [List.append_assoc, List.append_assoc, hkey]
            simp only [parse_pairs, if_true]
            rw [hbody]
            dsimp only
            simp only [List.cons_append]
            rw [skip_ws_cons_ge _ _ (by decide)]
            dsimp only
            rw [if_pos rfl, skip_ws_space]
            have hint : skip_ws (int_digits p.2 ++
                (Char.ofNat 44 :: Char.ofNat 32 :: (dumps_pairs (q :: t) ++
                  [Char.ofNat 125]))) =
                int_digits p.2 ++ (Char.ofNat 44 :: Char.ofNat 32 ::
                  (dumps_pairs (q :: t) ++ [Char.ofNat 125])) := by
              rcases hid : int_digits p.2 with _ | ⟨c0, t0⟩
              · exact absurd hid (by
                  rw [int_digits]
                  by_cases hn : p.2 < 0 <;> simp [hn, nat_digits_ne_nil])
              · rw [List.cons_append]
                exact skip_ws_cons_ge _ _ (int_digits_head_ge p.2 c0 t0 hid)
            rw [hint]
            rw [parse_int_digits p.2 _ (by
              intro d hd
              injection hd with hd
              rw [← hd]
              decide)]
            dsimp only
            rw [skip_ws_cons_ge _ _ (by decide)]
            dsimp only
            rw [if_pos rfl, skip_ws_space]
            have hhead : skip_ws (dumps_pairs (q :: t) ++ [Char.ofNat 125]) =
                dumps_pairs (q :: t) ++ [Char.ofNat 125] := by
              rcases t with _ | ⟨r, t2⟩ <;>
                simp only [dumps_pairs, dumps_string, List.cons_append,
                  List.append_assoc] <;>
                exact skip_ws_cons_ge _ _ (by decide)
            rw [hhead]
            rw [ih f (by simpa using Nat.le_of_succ_le_succ hfuel) (by simp)]

/-- C9: the state file round-trips.  For every flat state mapping of
interface names to integer bridge identifiers, dumping it with
save_state's json.dumps and loading the result back with read_state's
json.loads yields the original mapping. -/
theorem C9_state_roundtrip (st : List (String × Int)) :
    json_loads (json_dumps st) = some st := by
  rcases st with _ | ⟨p, t⟩
  · rfl
  · have hsplit : ∃ R, dumps_pairs (p :: t) = dumps_string p.1 ++ R := by
      rcases t with _ | ⟨r, t2⟩
      · exact ⟨_, rfl⟩
      · exact ⟨(Char.ofNat 58 :: Char.ofNat 32 :: int_digits p.2) ++
          (Char.ofNat 44 :: Char.ofNat 32 :: dumps_pairs (r :: t2)),
          by rw [dumps_pairs, List.append_assoc]⟩
    have hhead34 : ∃ tl, dumps_pairs (p :: t) ++ [Char.ofNat 125] =
        Char.ofNat 34 :: tl := by
      rcases hsplit with ⟨R, hR⟩
      refine ⟨(p.1.data.flatMap esc_char ++ [Char.ofNat 34] ++ R) ++ [Char.ofNat 125], ?_⟩
      rw [hR]
      simp [dumps_string, List.cons_append, List.append_assoc]
    rcases hhead34 with ⟨tl, htl⟩
    have hlen : (p :: t).length ≤
        (dumps_pairs (p :: t) ++ [Char.ofNat 125]).length + 1 := by
      have hd := length_le_dumps_pairs (p :: t)
      simp only [List.length_append, List.length_cons] at hd ⊢
      omega
    rw [json_loads]
    rw [show (json_dumps (p :: t)).data =
      Char.ofNat 123 :: (dumps_pairs (p :: t) ++ [Char.ofNat 125]) from rfl]
    rw [skip_ws_cons_ge _ _ (by decide)]
    dsimp only
    rw [if_pos rfl]
    rw [htl]
    rw [skip_ws_cons_ge _ _ (by decide)]
    dsimp only
    rw [if_neg (by decide)]
    rw [← htl]
    rw [parse_pairs_dumps (p :: t) _ hlen (by simp)]
    rfl

/-- C6: IRQ planning is deterministic and positional.  For a fixed table
and mapping: (1) the matches and the outcome are identical in every mode
(report, show-existing, apply) — in particular the occurrence counter
advances identically; (2) on normal completion the matches pair the
matched lines, in table order, with the first mapping key (in mapping
order) occurring in each line — later keys are not used — and with that
line's IRQ identifier token; (3) every match's core is the matched key's
configured base core plus the recorded occurrence; and (4) for every key
the recorded occurrences are 0, 1, 2, ... in match order, so the n-th
match of an interface is assigned base core + n. -/
theorem C6_irq_planning_positional (sim : DelaySim) (env : String → Bool)
    (lines : List String) (c1 s1 c2 s2 : Bool) (k : String) :
    ((process_irq_values sim env c1 s1 lines).2 =
      (process_irq_values sim env c2 s2 lines).2) ∧
    ((process_irq_values sim env c1 s1 lines).2.2 = Res.ok →
      (process_irq_values sim env c1 s1 lines).2.1.map (fun m => (m.iface, m.irq_id)) =
        lines.filterMap (fun line =>
          (first_key (sim.interface_core_mapping.map Prod.fst) line).map
            (fun k2 => (k2, irq_id_of line)))) ∧
    (∀ m ∈ (process_irq_values sim env c1 s1 lines).2.1,
      m.core = (sim.interface_core_mapping.lookup m.iface).getD 0 + m.occurrence) ∧
    (((process_irq_values sim env c1 s1 lines).2.1.filter
        (fun m => m.iface == k)).map IrqMatch.occurrence =
      List.range' 0 (((process_irq_values sim env c1 s1 lines).2.1.filter
        (fun m => m.iface == k)).length)) := by
  refine ⟨irq_modes_eq sim env c1 s1 c2 s2 lines _, fun hok => ?_,
    irq_core_eq sim env c1 s1 lines _, ?_⟩
  · have h := irq_matches_proj sim env c1 s1 lines
      (irq_counters_init sim.interface_core_mapping) hok
    rw [irq_counters_init_keys] at h
    exact h
  · have h := irq_occurrences sim env c1 s1 lines
      (irq_counters_init sim.interface_core_mapping) k
    rw [irq_counters_init_lookup] at h
    exact h

/-- C6 witness: the theorem applied to the sample table, whose run
completes normally, in report mode. -/
theorem C6_irq_planning_positional_witness :
    (process_irq_values irq_sim env_all false false irq_lines).2.1.map
        (fun m => (m.iface, m.irq_id)) =
      irq_lines.filterMap (fun line =>
        (first_key (irq_sim.interface_core_mapping.map Prod.fst) line).map
          (fun k2 => (k2, irq_id_of line))) :=
  (C6_irq_planning_positional irq_sim env_all irq_lines false false true false
    "eth0-tx").2.1 (by decide)

/-- C10 counterexample: outside show-only mode, the kernel write for the
value containing a space (here a value of 1 2 targeting
/proc/sys/net/core/x) writes the truncated content 1 to a file literally
named by the redirect token, not to the target pseudo-file, which receives
nothing.  This refutes the part of the claim asserting the truncated
content is written to the target pseudo-file. -/
theorem C10_counterexample :
    process_external_command sample_ns env_none (echo_cmd_str "1 2" "/proc/sys/net/core/x") =
      ([Eff.fileWrite ">" "1"], Res.ok) ∧
    (">" : String) ≠ "/proc/sys/net/core/x" := by
  decide

/-- C10 amended: every kernel-parameter write (kernel tweaks and IRQ
affinity writes both use this echo command shape) splits the command on
spaces and performs exactly one file write, whose content is the value's
first space-delimited word with single quotes removed and whose
destination is the token at index 3 of the split command.  A space-free
value is written literally (quotes stripped) to the target pseudo-file; a
spaced value shifts the token positions, so the destination becomes the
redirect symbol when the value has exactly one space, the value's third
word with the closing quote appended when it has exactly two, and the
value's third word plain when it has three or more — a token of the value
or the redirect symbol, never the command's target argument position. -/
theorem C10_kernel_write_semantics (sim : DelaySim) (env : String → Bool)
    (value target v1 v2 v3 v4 : String) (hshow : sim.show_only = false)
    (ht : ∀ c ∈ target.data, c ≠ Char.ofNat 32)
    (hv1 : ∀ c ∈ v1.data, c ≠ Char.ofNat 32)
    (hv2 : ∀ c ∈ v2.data, c ≠ Char.ofNat 32)
    (hv3 : ∀ c ∈ v3.data, c ≠ Char.ofNat 32) :
    ((∀ c ∈ value.data, c ≠ Char.ofNat 32) →
      process_external_command sim env (echo_cmd_str value target) =
        ([Eff.fileWrite target (strip_quotes value)], Res.ok)) ∧
    (process_external_command sim env (echo_cmd_str (v1 ++ " " ++ v2) target) =
        ([Eff.fileWrite ">" (strip_quotes v1)], Res.ok)) ∧
    (process_external_command sim env
        (echo_cmd_str (v1 ++ " " ++ v2 ++ " " ++ v3) target) =
        ([Eff.fileWrite (v3 ++ sq) (strip_quotes v1)], Res.ok)) ∧
    (process_external_command sim env
        (echo_cmd_str (v1 ++ " " ++ v2 ++ " " ++ v3 ++ " " ++ v4) target) =
        ([Eff.fileWrite v3 (strip_quotes v1)], Res.ok)) := by
  refine ⟨fun hv => ?_, ?_, ?_, ?_⟩
  · rw [pec_echo sim env _ hshow (first_token_echo_cmd value target)]
    unfold echo_write_eff
    rw [command_tokens_echo value target hv ht]
    simp [strip_quotes_wrap]
  · rw [pec_echo sim env _ hshow (first_token_echo_cmd _ target)]
    unfold echo_write_eff
    rw [command_tokens_echo_spaced v1 v2 target hv1 hv2 ht]
    simp [strip_quotes_open]
  · rw [pec_echo sim env _ hshow (first_token_echo_cmd _ target)]
    unfold echo_write_eff
    rw [command_tokens_echo_spaced2 v1 v2 v3 target hv1 hv2 hv3 ht]
    simp [strip_quotes_open]
  · rw [pec_echo sim env _ hshow (first_token_echo_cmd _ target)]
    unfold echo_write_eff
    rw [command_tokens_echo_spaced3 v1 v2 v3 v4 target hv1 hv2 hv3]
    simp [strip_quotes_open, List.cons_append]

/-- C10 witness: the amended theorem applied to the space-free sample
tweak value and to the spaced value 4096 87380 6291456 (and a four-word
variant), all targeting one pseudo-file. -/
theorem C10_kernel_write_semantics_witness :
    process_external_command sample_ns env_none
        (echo_cmd_str "16777216" "/proc/sys/net/ipv4/tcp_rmem") =
      ([Eff.fileWrite "/proc/sys/net/ipv4/tcp_rmem" (strip_quotes "16777216")], Res.ok) ∧
    process_external_command sample_ns env_none
        (echo_cmd_str ("4096" ++ " " ++ "87380") "/proc/sys/net/ipv4/tcp_rmem") =
      ([Eff.fileWrite ">" (strip_quotes "4096")], Res.ok) ∧
    process_external_command sample_ns env_none
        (echo_cmd_str ("4096" ++ " " ++ "87380" ++ " " ++ "6291456")
          "/proc/sys/net/ipv4/tcp_rmem") =
      ([Eff.fileWrite ("6291456" ++ sq) (strip_quotes "4096")], Res.ok) ∧
    process_external_command sample_ns env_none
        (echo_cmd_str ("4096" ++ " " ++ "87380" ++ " " ++ "6291456" ++ " " ++ "0")
          "/proc/sys/net/ipv4/tcp_rmem") =
      ([Eff.fileWrite "6291456" (strip_quotes "4096")], Res.ok) := by
  have h := C10_kernel_write_semantics sample_ns env_none "16777216"
    "/proc/sys/net/ipv4/tcp_rmem" "4096" "87380" "6291456" "0" rfl
    (by decide) (by decide) (by decide) (by decide)
  exact ⟨h.1 (by decide), h.2.1, h.2.2.1, h.2.2.2⟩

end DelaySimModel
